import Mathlib

/-!
Limit order book (`capstone_project/order_book.hpp`, `capstone_project/order_book.cpp`).

A shallow embedding of the `OrderBook` class and the proofs of its specification.

Modelling conventions

* a `double` price is a rational number, one of the two infinities, or NaN
  (`Price`); `<`, `<=`, `==`, `std::less` and `std::greater` are the IEEE comparisons:
  every comparison with NaN is false.  (Every finite double is a rational number, and
  `-0.0` and `0.0`, which compare equal, are both `0`.)
* `std::map<double, std::vector<Order>, Comp>` is the list of its entries in
  iteration order, so the first entry is `begin()`.  `find`, `operator[]` and `erase`
  search with the comparator as the tree does: the entry found for a key is the first
  one that is not ordered before the key (`lower_bound`), and it matches when the key
  is not ordered before it either, and `erase` removes the entries equivalent to the
  key (`equal_range`).  A NaN is equivalent to every key, though it breaks the strict
  weak ordering that `std::map` asks of its comparator: `find(NaN)` and `operator[]`
  with NaN stop at the first entry of the map, a NaN key is only ever inserted into an
  empty map, and as long as it is there every key resolves to its entry, so that it
  stays the sole key.  The functions do not require their input to be sorted;
  sortedness is proved of every reachable state (`sorted_of_reachable`).
* `std::unordered_map<uint64_t, OrderLocation>` is a function
  `Nat → Option OrderLocation` (the code never iterates over it).
* `total_orders` is a 64-bit counter: `++` and `--` are taken modulo `2 ^ 64`, and
  so are the `uint64_t` quantity totals that the queries accumulate.
  `order_id_counter` is kept an unbounded natural number: it only ever grows by one
  per successful `createOrder` (`counter_after_run`), so the 64-bit counter of the
  source would need `2 ^ 64` successful creations to wrap; up to there the two agree.
* `std::chrono::system_clock::now()` is an extra argument `now` of the calls
  that read the clock.
* an operation returns its result together with the book after the call; a thrown
  exception is an `Except.error` result next to the book as the call left it.
-/

namespace HFT

/-- The values of a `double` price. -/
inductive Price where
  | negInf
  | fin (q : ℚ)
  | posInf
  | nan
deriving DecidableEq

instance [OfNat ℚ n] : OfNat Price n := ⟨Price.fin (OfNat.ofNat n)⟩

instance : OfScientific Price :=
  ⟨fun mantissa exponentSign decimalExponent =>
    Price.fin (OfScientific.ofScientific mantissa exponentSign decimalExponent)⟩

/-- The comparison `a < b` of two doubles, which is the comparator `std::less<double>`
of `ask_side`. -/
def less : Price → Price → Bool
  | .nan, _ => false
  | _, .nan => false
  | .negInf, .negInf => false
  | .negInf, _ => true
  | .fin _, .negInf => false
  | .fin a, .fin b => decide (a < b)
  | .fin _, .posInf => true
  | .posInf, _ => false

/-- The comparison `a > b` of two doubles, which is the comparator
`std::greater<double>` of `bid_side`. -/
def greater (a b : Price) : Bool := less b a

/-- The comparison `a == b` of two doubles. -/
def Price.eq : Price → Price → Bool
  | .nan, _ => false
  | _, .nan => false
  | a, b => decide (a = b)

/-- The comparison `a <= b` of two doubles. -/
def Price.le (a b : Price) : Bool := less a b || Price.eq a b

instance : LT Price := ⟨fun a b => less a b = true⟩

instance : LE Price := ⟨fun a b => Price.le a b = true⟩

instance (a b : Price) : Decidable (a < b) := inferInstanceAs (Decidable (less a b = true))

instance (a b : Price) : Decidable (a ≤ b) := inferInstanceAs (Decidable (Price.le a b = true))

/-- The modulus of `uint64_t` arithmetic. -/
def U64 : Nat := 2 ^ 64

/-- The source enum `OrderType`. -/
inductive OrderType where
  | BUY
  | SELL
deriving DecidableEq, Repr

/-- The source struct `Order`. -/
structure Order where
  order_id : Nat
  order_type : OrderType
  price : Price
  quantity : Nat
  timestamp_ns : Nat
deriving DecidableEq

/-- The source struct `PriceLevel`. -/
structure PriceLevel where
  price : Price
  total_quantity : Nat
deriving DecidableEq

/-- The source struct `OrderBook::OrderLocation`. -/
structure OrderLocation where
  price : Price
  index : Nat
  is_buy : Bool
deriving DecidableEq

/-- A `std::map<double, std::vector<Order>, Comp>`: entries in iteration order. -/
abbrev PriceMap := List (Price × List Order)

/-- `m.find(p)` for a map with comparator `comp`: the bucket of the first entry whose
key is not ordered before `p`, if `p` is not ordered before that key either. -/
def mapFind (comp : Price → Price → Bool) : PriceMap → Price → Option (List Order)
  | [], _ => none
  | (k, b) :: rest, p =>
    if comp k p then mapFind comp rest p
    else if comp p k then none
    else some b

/-- `m[p].push_back(o)`: `operator[]` looks the key up as `find` does and creates an
empty bucket in front of the entry it stopped at when the key is absent; the order is
appended to the bucket. -/
def mapPushBack (comp : Price → Price → Bool) : PriceMap → Price → Order → PriceMap
  | [], p, o => [(p, [o])]
  | (k, b) :: rest, p, o =>
    if comp k p then (k, b) :: mapPushBack comp rest p o
    else if comp p k then (p, [o]) :: (k, b) :: rest
    else (k, b ++ [o]) :: rest

/-- A write through the reference to the bucket that `find(p)` returned. -/
def mapAssign (comp : Price → Price → Bool) : PriceMap → Price → List Order → PriceMap
  | [], _, _ => []
  | (k, b) :: rest, p, b1 =>
    if comp k p then (k, b) :: mapAssign comp rest p b1
    else if comp p k then (k, b) :: rest
    else (k, b1) :: rest

/-- `m.erase(p)`: every entry whose key is equivalent to `p` (neither ordered before the
other) is removed. -/
def mapErase (comp : Price → Price → Bool) (m : PriceMap) (p : Price) : PriceMap :=
  m.filter (fun e => comp e.1 p || comp p e.1)

/-- `std::swap(v[i], v.back()); v.pop_back();` on a vector `v`. -/
def swapPop (v : List Order) (i : Nat) : List Order :=
  match v.getLast? with
  | none => v
  | some last => (v.set i last).dropLast

/-- `order_lookup[id].index = i`: `operator[]` value-initialises the entry when the
key is absent. -/
def setIndex (lookup : Nat → Option OrderLocation) (id i : Nat) : Nat → Option OrderLocation :=
  Function.update lookup id
    (match lookup id with
     | some loc => some { loc with index := i }
     | none => some { price := 0, index := i, is_buy := false })

/-- The data members of the source class `OrderBook`. -/
structure OrderBook where
  bid_side : PriceMap
  ask_side : PriceMap
  order_lookup : Nat → Option OrderLocation
  total_orders : Nat
  order_id_counter : Nat
  best_bid_price : Price
  best_ask_price : Price
  best_bid_qty : Nat
  best_ask_qty : Nat

/-- The constructor `OrderBook::OrderBook()`. -/
def OrderBook.empty : OrderBook where
  bid_side := []
  ask_side := []
  order_lookup := fun _ => none
  total_orders := 0
  order_id_counter := 1
  best_bid_price := 0
  best_ask_price := 0
  best_bid_qty := 0
  best_ask_qty := 0

/-- How a call can fail: `invalid_argument` is the exception
`std::invalid_argument`; `out_of_bounds` stands for reading a vector past its end,
which is undefined behaviour in the source. -/
inductive Failure where
  | invalid_argument
  | out_of_bounds
deriving DecidableEq, Repr

deriving instance DecidableEq for Except

/-- `OrderBook::invalidate_best_prices`. -/
def invalidate_best_prices (s : OrderBook) : OrderBook :=
  { s with best_bid_price := 0, best_ask_price := 0, best_bid_qty := 0, best_ask_qty := 0 }

/-- `OrderBook::getOrderCount`. -/
def getOrderCount (s : OrderBook) : Nat := s.total_orders

/-- `OrderBook::orderExists`. -/
def orderExists (s : OrderBook) (order_id : Nat) : Bool :=
  (s.order_lookup order_id).isSome

/-- `OrderBook::createOrder`; `now` is the clock reading. -/
def createOrder (s : OrderBook) (order_type : OrderType) (price : Price) (quantity : Nat)
    (now : Nat) : Except Failure Nat × OrderBook :=
  if price ≤ 0 ∨ quantity = 0 then (.error .invalid_argument, s)
  else
    let new_order_id := s.order_id_counter
    let s1 := { s with order_id_counter := s.order_id_counter + 1 }
    let new_order : Order := ⟨new_order_id, order_type, price, quantity, now⟩
    let s2 : OrderBook :=
      if order_type = OrderType.BUY then
        let bid := mapPushBack greater s1.bid_side price new_order
        { s1 with
          bid_side := bid
          order_lookup := Function.update s1.order_lookup new_order_id
            (some ⟨price, ((mapFind greater bid price).getD []).length - 1, true⟩) }
      else
        let ask := mapPushBack less s1.ask_side price new_order
        { s1 with
          ask_side := ask
          order_lookup := Function.update s1.order_lookup new_order_id
            (some ⟨price, ((mapFind less ask price).getD []).length - 1, false⟩) }
    let s3 := { s2 with total_orders := (s2.total_orders + 1) % U64 }
    (.ok new_order_id, invalidate_best_prices s3)

/-- `OrderBook::cancelOrder`.  (Should `order_lookup[...]` on line 71 insert a new
entry, the source would go on to erase through an iterator that a rehash may have
invalidated; the model erases the key `order_id`.) -/
def cancelOrder (s : OrderBook) (order_id : Nat) : Bool × OrderBook :=
  match s.order_lookup order_id with
  | none => (false, s)
  | some location =>
    let orders_at_price_ptr :=
      if location.is_buy then mapFind greater s.bid_side location.price
      else mapFind less s.ask_side location.price
    match orders_at_price_ptr with
    | none => (false, s)
    | some orders =>
      if location.index ≥ orders.length then (false, s)
      else
        let orders_at_price := swapPop orders location.index
        let lookup1 :=
          if h : location.index < orders_at_price.length then
            setIndex s.order_lookup (orders_at_price[location.index]).order_id location.index
          else s.order_lookup
        let bid1 :=
          if location.is_buy then mapAssign greater s.bid_side location.price orders_at_price
          else s.bid_side
        let ask1 := if location.is_buy then s.ask_side
          else mapAssign less s.ask_side location.price orders_at_price
        let bid2 := if orders_at_price.isEmpty ∧ location.is_buy
          then mapErase greater bid1 location.price else bid1
        let ask2 := if orders_at_price.isEmpty ∧ ¬ location.is_buy
          then mapErase less ask1 location.price else ask1
        let s1 : OrderBook :=
          { s with
            bid_side := bid2
            ask_side := ask2
            order_lookup := Function.update lookup1 order_id none
            total_orders := (s.total_orders + U64 - 1) % U64 }
        (true, invalidate_best_prices s1)

/-- `OrderBook::updateOrder`; `now` is the clock reading.  `side[price][index]` on a
missing bucket or past the end of the bucket is undefined behaviour in the source
and is reported as `Failure.out_of_bounds`. -/
def updateOrder (s : OrderBook) (order_id : Nat) (new_price : Price) (now : Nat) :
    Except Failure Bool × OrderBook :=
  if new_price ≤ 0 then (.error .invalid_argument, s)
  else
    match s.order_lookup order_id with
    | none => (.ok false, s)
    | some location =>
      if Price.eq location.price new_price then (.ok true, s)
      else
        let bucket :=
          if location.is_buy then mapFind greater s.bid_side location.price
          else mapFind less s.ask_side location.price
        match bucket.bind (fun orders => orders[location.index]?) with
        | none => (.error .out_of_bounds, s)
        | some order_info =>
          match cancelOrder s order_id with
          | (false, s1) => (.ok false, s1)
          | (true, s1) =>
            let updated_order : Order :=
              ⟨order_id, order_info.order_type, new_price, order_info.quantity, now⟩
            let s2 : OrderBook :=
              if order_info.order_type = OrderType.BUY then
                let bid := mapPushBack greater s1.bid_side new_price updated_order
                { s1 with
                  bid_side := bid
                  order_lookup := Function.update s1.order_lookup order_id
                    (some ⟨new_price,
                      ((mapFind greater bid new_price).getD []).length - 1, true⟩) }
              else
                let ask := mapPushBack less s1.ask_side new_price updated_order
                { s1 with
                  ask_side := ask
                  order_lookup := Function.update s1.order_lookup order_id
                    (some ⟨new_price,
                      ((mapFind less ask new_price).getD []).length - 1, false⟩) }
            (.ok true, invalidate_best_prices s2)

/-- One call of a mutating member function, with its arguments. -/
inductive Call where
  | createOrder (order_type : OrderType) (price : Price) (quantity : Nat) (now : Nat)
  | cancelOrder (order_id : Nat)
  | updateOrder (order_id : Nat) (new_price : Price) (now : Nat)

/-- The book after a call (a failing call included: an exception is thrown before
anything is written). -/
def OrderBook.after (s : OrderBook) : Call → OrderBook
  | .createOrder t p q now => (createOrder s t p q now).2
  | .cancelOrder id => (cancelOrder s id).2
  | .updateOrder id p now => (updateOrder s id p now).2

/-- The book after a sequence of calls, oldest first. -/
def OrderBook.run (s : OrderBook) (calls : List Call) : OrderBook :=
  calls.foldl OrderBook.after s

/-- The states reachable from the empty book by a finite sequence of calls. -/
inductive Reachable : OrderBook → Prop where
  | init : Reachable OrderBook.empty
  | step {s : OrderBook} (c : Call) : Reachable s → Reachable (s.after c)

/-- The price argument of the call, if it has one, is not NaN. -/
def Call.numeric : Call → Bool
  | .createOrder _ p _ _ => decide (p ≠ Price.nan)
  | .cancelOrder _ => true
  | .updateOrder _ p _ => decide (p ≠ Price.nan)

/-- The states reachable from the empty book by a finite sequence of calls none of
which is given a NaN price. -/
inductive NumReachable : OrderBook → Prop where
  | init : NumReachable OrderBook.empty
  | step {s : OrderBook} (c : Call) (hc : c.numeric = true) :
      NumReachable s → NumReachable (s.after c)

/-- The keys of a map, in iteration order. -/
def mapKeys (m : PriceMap) : List Price := m.map Prod.fst

/-- The keys of a map are strictly ordered by its comparator. -/
def MapSorted (comp : Price → Price → Bool) (m : PriceMap) : Prop :=
  (mapKeys m).Pairwise (fun a b => comp a b = true)

/-- What the comparators `less` and `greater` are: strict orders that are total on
the prices other than NaN, and hold of no pair with a NaN. -/
structure StrictTotal (comp : Price → Price → Bool) : Prop where
  irrefl : ∀ a, comp a a = false
  trans : ∀ a b c, comp a b = true → comp b c = true → comp a c = true
  total : ∀ a b, a ≠ Price.nan → b ≠ Price.nan → a ≠ b → comp a b = false → comp b a = true
  num : ∀ a b, comp a b = true → a ≠ Price.nan ∧ b ≠ Price.nan

/-- The map of one side of the book: `bid_side` when `is_buy`, else `ask_side`. -/
def sideOf (s : OrderBook) (is_buy : Bool) : PriceMap :=
  if is_buy then s.bid_side else s.ask_side

/-- The comparator of one side of the book. -/
def compOf (is_buy : Bool) : Price → Price → Bool :=
  if is_buy then greater else less

/-- `find(p)` on the map of one side of the book. -/
def bucketAt (s : OrderBook) (is_buy : Bool) (p : Price) : Option (List Order) :=
  mapFind (compOf is_buy) (sideOf s is_buy) p

/-- The side an order type rests on: `true` for `bid_side`. -/
def isBuy (t : OrderType) : Bool := decide (t = OrderType.BUY)

/-- The insertion that `createOrder` (lines 26-32) and `updateOrder` (lines 121-127)
both perform for the order `o`. -/
def insertOrder (s : OrderBook) (o : Order) : OrderBook :=
  if o.order_type = OrderType.BUY then
    let bid := mapPushBack greater s.bid_side o.price o
    { s with
      bid_side := bid
      order_lookup := Function.update s.order_lookup o.order_id
        (some ⟨o.price, ((mapFind greater bid o.price).getD []).length - 1, true⟩) }
  else
    let ask := mapPushBack less s.ask_side o.price o
    { s with
      ask_side := ask
      order_lookup := Function.update s.order_lookup o.order_id
        (some ⟨o.price, ((mapFind less ask o.price).getD []).length - 1, false⟩) }

/-- The book `cancelOrder` leaves (lines 66-84) once it has found the bucket `orders`
of the order at `location`. -/
def removeOrder (s : OrderBook) (order_id : Nat) (location : OrderLocation)
    (orders : List Order) : OrderBook :=
  let orders_at_price := swapPop orders location.index
  let lookup1 :=
    if h : location.index < orders_at_price.length then
      setIndex s.order_lookup (orders_at_price[location.index]).order_id location.index
    else s.order_lookup
  let bid1 :=
    if location.is_buy then mapAssign greater s.bid_side location.price orders_at_price
    else s.bid_side
  let ask1 := if location.is_buy then s.ask_side
    else mapAssign less s.ask_side location.price orders_at_price
  let bid2 := if orders_at_price.isEmpty ∧ location.is_buy
    then mapErase greater bid1 location.price else bid1
  let ask2 := if orders_at_price.isEmpty ∧ ¬ location.is_buy
    then mapErase less ask1 location.price else ask1
  invalidate_best_prices
    { s with
      bid_side := bid2
      ask_side := ask2
      order_lookup := Function.update lookup1 order_id none
      total_orders := (s.total_orders + U64 - 1) % U64 }

/-- The consistency of the price maps and the location index, as it holds when no
NaN price has entered the book. -/
structure Inv (s : OrderBook) : Prop where
  bid_sorted : MapSorted greater s.bid_side
  ask_sorted : MapSorted less s.ask_side
  numeric : ∀ is_buy, ∀ k ∈ mapKeys (sideOf s is_buy), k ≠ Price.nan
  loc_numeric : ∀ id loc, s.order_lookup id = some loc → loc.price ≠ Price.nan
  located : ∀ id loc, s.order_lookup id = some loc →
    ∃ b o, bucketAt s loc.is_buy loc.price = some b ∧
      b[loc.index]? = some o ∧ o.order_id = id
  indexed : ∀ is_buy p b i o, p ≠ Price.nan → bucketAt s is_buy p = some b →
    b[i]? = some o → s.order_lookup o.order_id = some ⟨p, i, is_buy⟩
  fresh : ∀ id loc, s.order_lookup id = some loc → id < s.order_id_counter
  nonempty : ∀ is_buy p b, p ≠ Price.nan → bucketAt s is_buy p = some b → b ≠ []
  typed : ∀ is_buy p b o, p ≠ Price.nan → bucketAt s is_buy p = some b → o ∈ b →
    isBuy o.order_type = is_buy ∧ o.price = p ∧ 0 < p ∧ 0 < o.quantity

/-- The identifiers returned by the successful `createOrder` calls of a sequence of
calls made on the book `s`, in call order. -/
def createdIds (s : OrderBook) : List Call → List Nat
  | [] => []
  | c :: rest =>
    match c with
    | .createOrder t p q now =>
      match (createOrder s t p q now).1 with
      | .ok id => id :: createdIds (s.after c) rest
      | .error _ => createdIds (s.after c) rest
    | _ => createdIds (s.after c) rest

/-- The number of orders stored in the buckets of both sides. -/
def storedCount (s : OrderBook) : Nat :=
  (s.bid_side.map (fun e => e.2.length)).sum + (s.ask_side.map (fun e => e.2.length)).sum

/-- The loop `for (order : orders) total_qty += order.quantity` on a `uint64_t`
accumulator that starts at 0. -/
def sumQuantity (orders : List Order) : Nat :=
  orders.foldl (fun total_qty order => (total_qty + order.quantity) % U64) 0

/-- One of the two loops of `OrderBook::getDepthSnapshot` over the entries of a side
that are still to be visited; `count` is `bid_count` or `ask_count` and `levels` the
output vector so far. -/
def snapshotLoop (depth : Nat) : PriceMap → Nat → List PriceLevel → List PriceLevel
  | [], _, levels => levels
  | (price, orders) :: rest, count, levels =>
    if count ≥ depth then levels
    else snapshotLoop depth rest (count + 1) (levels ++ [⟨price, sumQuantity orders⟩])

/-- `std::vector<PriceLevel>::clear`. -/
def clear (_ : List PriceLevel) : List PriceLevel := []

/-- `OrderBook::getDepthSnapshot`: `bids` and `asks` are the output vectors as the
caller passes them in; the result is what they hold on return. -/
def getDepthSnapshot (s : OrderBook) (depth : Nat) (bids asks : List PriceLevel) :
    List PriceLevel × List PriceLevel :=
  (snapshotLoop depth s.bid_side 0 (clear bids), snapshotLoop depth s.ask_side 0 (clear asks))

/-- `OrderBook::getBestBidAsk`. -/
def getBestBidAsk (s : OrderBook) : Price × Price :=
  let best_bid : Price := match s.bid_side with
    | [] => 0
    | (price, _) :: _ => price
  let best_ask : Price := match s.ask_side with
    | [] => 0
    | (price, _) :: _ => price
  (best_bid, best_ask)

/-- `OrderBook::getBestBidAskQuantities`. -/
def getBestBidAskQuantities (s : OrderBook) : Nat × Nat :=
  let bid_qty := match s.bid_side with
    | [] => 0
    | (_, orders) :: _ => sumQuantity orders
  let ask_qty := match s.ask_side with
    | [] => 0
    | (_, orders) :: _ => sumQuantity orders
  (bid_qty, ask_qty)

/-- The level `emplace_back(price, total_qty)` appends for one entry of a side. -/
def levelOf (e : Price × List Order) : PriceLevel := ⟨e.1, sumQuantity e.2⟩

/-- The order stored where the location index says the identifier `id` rests. -/
def orderOf (s : OrderBook) (id : Nat) : Option Order :=
  (s.order_lookup id).bind (fun loc =>
    (bucketAt s loc.is_buy loc.price).bind (fun b => b[loc.index]?))

/-- The currently active orders: the orders of the identifiers handed out so far for
which `orderExists` holds, by increasing identifier (`activeOrders_complete`: under the
invariant their identifiers are exactly those for which `orderExists` holds). -/
def activeOrders (s : OrderBook) : List Order :=
  (List.range s.order_id_counter).filterMap (orderOf s)

/-- The active orders of one side. -/
def activeSide (s : OrderBook) (t : OrderType) : List Order :=
  (activeOrders s).filter (fun o => o.order_type = t)

/-- The active orders of one side that rest at the price `p`. -/
def activeOrdersAt (s : OrderBook) (t : OrderType) (p : Price) : List Order :=
  (activeSide s t).filter (fun o => o.price = p)


/-! ## The comparators -/

theorem strictTotal_less : StrictTotal less where
  irrefl a := by cases a <;> simp [less]
  trans a b c h1 h2 := by
    cases a <;> cases b <;> cases c <;> simp_all [less]
    exact lt_trans h1 h2
  total a b ha hb hab h := by
    cases a <;> cases b <;> simp_all [less]
    exact lt_of_le_of_ne h (Ne.symm hab)
  num a b h := by
    cases a <;> cases b <;> simp_all [less]

theorem strictTotal_greater : StrictTotal greater where
  irrefl a := strictTotal_less.irrefl a
  trans a b c h1 h2 := strictTotal_less.trans c b a h2 h1
  total a b ha hb hab h := strictTotal_less.total b a hb ha (Ne.symm hab) h
  num a b h := (strictTotal_less.num b a h).symm

theorem strictTotal_compOf (ib : Bool) : StrictTotal (compOf ib) := by
  cases ib
  · exact strictTotal_less
  · exact strictTotal_greater

theorem StrictTotal.asymm {comp : Price → Price → Bool} (hc : StrictTotal comp) {a b : Price}
    (h : comp a b = true) : comp b a = false := by
  cases hba : comp b a with
  | false => rfl
  | true =>
    have := hc.trans a b a h hba
    rw [hc.irrefl] at this
    exact Bool.noConfusion this

theorem StrictTotal.eq_of_equiv {comp : Price → Price → Bool} (hc : StrictTotal comp)
    {a b : Price} (ha : a ≠ Price.nan) (hb : b ≠ Price.nan) (h1 : comp a b = false)
    (h2 : comp b a = false) : a = b := by
  by_contra hne
  have := hc.total a b ha hb hne h1
  rw [h2] at this
  exact Bool.noConfusion this

theorem StrictTotal.ne_of_comp {comp : Price → Price → Bool} (hc : StrictTotal comp)
    {a b : Price} (h : comp a b = true) : a ≠ b := by
  intro hab
  rw [hab, hc.irrefl] at h
  exact Bool.noConfusion h

theorem lt_iff_less (a b : Price) : a < b ↔ less a b = true := Iff.rfl

theorem gt_iff_greater (a b : Price) : a > b ↔ greater a b = true := Iff.rfl

theorem pos_ne_nan {p : Price} (h : 0 < p) : p ≠ Price.nan :=
  (strictTotal_less.num 0 p h).2

theorem not_le_zero_iff {p : Price} (hp : p ≠ Price.nan) : ¬ p ≤ 0 ↔ 0 < p := by
  cases p with
  | nan => exact absurd rfl hp
  | negInf =>
    constructor
    · intro h
      exact absurd (by decide) h
    · intro h
      exact absurd h (by decide)
  | posInf =>
    constructor
    · intro _
      decide
    · intro _
      decide
  | fin q =>
    show ¬ (Price.le (Price.fin q) (Price.fin 0) = true) ↔ less (Price.fin 0) (Price.fin q) = true
    simp only [Price.le, less, Price.eq, Bool.or_eq_true, decide_eq_true_eq, Price.fin.injEq]
    constructor
    · intro h
      rw [not_or] at h
      exact lt_of_le_of_ne (not_lt.mp h.1) (Ne.symm h.2)
    · intro h hc
      rcases hc with hc | hc
      · exact absurd h (not_lt.mpr (le_of_lt hc))
      · rw [hc] at h
        exact lt_irrefl _ h

theorem not_pos_of_le_zero {p : Price} (h : p ≤ 0) : ¬ 0 < p := by
  cases p with
  | nan => exact absurd h (by decide)
  | negInf => decide
  | posInf => exact absurd h (by decide)
  | fin q =>
    intro hpos
    have h1 : Price.le (Price.fin q) (Price.fin 0) = true := h
    have h2 : less (Price.fin 0) (Price.fin q) = true := hpos
    simp only [Price.le, less, Price.eq, Bool.or_eq_true, decide_eq_true_eq,
      Price.fin.injEq] at h1 h2
    rcases h1 with h1 | h1
    · exact absurd h2 (not_lt.mpr (le_of_lt h1))
    · rw [h1] at h2
      exact lt_irrefl _ h2

theorem Price.eq_iff {a b : Price} (ha : a ≠ Price.nan) (hb : b ≠ Price.nan) :
    Price.eq a b = true ↔ a = b := by
  cases a <;> cases b <;> simp_all [Price.eq]

/-! ## The price maps -/

theorem mapSorted_tail {comp : Price → Price → Bool} {e : Price × List Order} {rest : PriceMap}
    (h : MapSorted comp (e :: rest)) : MapSorted comp rest := by
  simp only [MapSorted, mapKeys, List.map_cons, List.pairwise_cons] at h ⊢
  exact h.2

theorem mapSorted_head {comp : Price → Price → Bool} {e : Price × List Order} {rest : PriceMap}
    (h : MapSorted comp (e :: rest)) : ∀ q ∈ mapKeys rest, comp e.1 q = true := by
  simp only [MapSorted, mapKeys, List.map_cons, List.pairwise_cons] at h ⊢
  exact h.1

theorem mapKeys_cons (k : Price) (b : List Order) (rest : PriceMap) :
    mapKeys ((k, b) :: rest) = k :: mapKeys rest := rfl

theorem mem_of_mapFind {comp : Price → Price → Bool} {m : PriceMap} {p : Price}
    {b : List Order} (h : mapFind comp m p = some b) :
    ∃ k, (k, b) ∈ m ∧ comp k p = false ∧ comp p k = false := by
  induction m with
  | nil => exact Option.noConfusion h
  | cons e rest ih =>
    obtain ⟨k, b0⟩ := e
    simp only [mapFind] at h
    split_ifs at h with h1 h2
    · obtain ⟨k1, hm, hk⟩ := ih h
      exact ⟨k1, List.mem_cons_of_mem _ hm, hk⟩
    · cases h
      exact ⟨k, List.mem_cons_self _ _, by simpa using h1, by simpa using h2⟩

theorem mem_of_mapFind_num {comp : Price → Price → Bool} (hc : StrictTotal comp)
    {m : PriceMap} (hnum : ∀ k ∈ mapKeys m, k ≠ Price.nan) {p : Price}
    (hp : p ≠ Price.nan) {b : List Order} (h : mapFind comp m p = some b) : (p, b) ∈ m := by
  obtain ⟨k, hm, h1, h2⟩ := mem_of_mapFind h
  have hk : k ≠ Price.nan := hnum k (List.mem_map.mpr ⟨(k, b), hm, rfl⟩)
  rw [← hc.eq_of_equiv hk hp h1 h2]
  exact hm

theorem mem_mapKeys_of_mapFind {comp : Price → Price → Bool} (hc : StrictTotal comp)
    {m : PriceMap} (hnum : ∀ k ∈ mapKeys m, k ≠ Price.nan) {p : Price}
    (hp : p ≠ Price.nan) {b : List Order} (h : mapFind comp m p = some b) :
    p ∈ mapKeys m :=
  List.mem_map.mpr ⟨(p, b), mem_of_mapFind_num hc hnum hp h, rfl⟩

theorem mapFind_eq_none_of_not_mem {comp : Price → Price → Bool} (hc : StrictTotal comp)
    {m : PriceMap} (hnum : ∀ k ∈ mapKeys m, k ≠ Price.nan) {p : Price}
    (hp : p ≠ Price.nan) (h : p ∉ mapKeys m) : mapFind comp m p = none := by
  cases hf : mapFind comp m p with
  | none => rfl
  | some b => exact absurd (mem_mapKeys_of_mapFind hc hnum hp hf) h

theorem mapFind_of_mem {comp : Price → Price → Bool} (hc : StrictTotal comp) {m : PriceMap}
    (hs : MapSorted comp m) {p : Price} {b : List Order} (h : (p, b) ∈ m) :
    mapFind comp m p = some b := by
  induction m with
  | nil => simp at h
  | cons e rest ih =>
    obtain ⟨k, b0⟩ := e
    rcases List.mem_cons.mp h with heq | hmem
    · cases heq
      simp [mapFind, hc.irrefl]
    · have hk : comp k p = true :=
        mapSorted_head hs p (List.mem_map.mpr ⟨(p, b), hmem, rfl⟩)
      simp only [mapFind, hk, if_true]
      exact ih (mapSorted_tail hs) hmem

theorem mapFind_of_mem_keys {comp : Price → Price → Bool} (hc : StrictTotal comp)
    {m : PriceMap} (hs : MapSorted comp m) {p : Price} (h : p ∈ mapKeys m) :
    ∃ b, mapFind comp m p = some b := by
  obtain ⟨e, he, hk⟩ := List.mem_map.mp h
  obtain ⟨k, b⟩ := e
  cases hk
  exact ⟨b, mapFind_of_mem hc hs he⟩

theorem mapFind_pushBack_self {comp : Price → Price → Bool} (hc : StrictTotal comp)
    (m : PriceMap) (p : Price) (o : Order) :
    mapFind comp (mapPushBack comp m p o) p = some ((mapFind comp m p).getD [] ++ [o]) := by
  induction m with
  | nil => simp [mapPushBack, mapFind, hc.irrefl]
  | cons e rest ih =>
    obtain ⟨k, b⟩ := e
    simp only [mapPushBack, mapFind]
    split_ifs with h1 h2
    · simp only [mapFind, h1, if_true]
      exact ih
    · simp [mapFind, hc.irrefl]
    · simp [mapFind, h1, h2]

theorem mapFind_pushBack_other {comp : Price → Price → Bool} (hc : StrictTotal comp)
    {m : PriceMap} (hnum : ∀ k ∈ mapKeys m, k ≠ Price.nan) {p q : Price}
    (hp : p ≠ Price.nan) (hq : q ≠ Price.nan) (o : Order) (hqp : q ≠ p) :
    mapFind comp (mapPushBack comp m p o) q = mapFind comp m q := by
  induction m with
  | nil =>
    simp only [mapPushBack, mapFind]
    split_ifs with h1 h2
    · rfl
    · rfl
    · exact absurd (hc.eq_of_equiv hp hq (by simpa using h1) (by simpa using h2)).symm hqp
  | cons e rest ih =>
    obtain ⟨k, b⟩ := e
    have hk : k ≠ Price.nan := hnum k (List.mem_cons_self _ _)
    have hrest : ∀ k1 ∈ mapKeys rest, k1 ≠ Price.nan :=
      fun k1 h1 => hnum k1 (List.mem_cons_of_mem _ h1)
    simp only [mapPushBack]
    split_ifs with h1 h2
    · simp only [mapFind, ih hrest]
    · have hL : mapFind comp ((p, [o]) :: (k, b) :: rest) q =
          if comp p q then mapFind comp ((k, b) :: rest) q
          else if comp q p then none else some [o] := rfl
      rw [hL]
      by_cases hpq : comp p q = true
      · rw [if_pos hpq]
      · have hqp1 : comp q p = true := hc.total p q hp hq (Ne.symm hqp) (by simpa using hpq)
        have hqk : comp q k = true := hc.trans _ _ _ hqp1 h2
        rw [if_neg hpq, if_pos hqp1]
        simp [mapFind, hc.asymm hqk, hqk]
    · have hkp : k = p := hc.eq_of_equiv hk hp (by simpa using h1) (by simpa using h2)
      simp only [mapFind]
      split_ifs with h3 h4
      · rfl
      · rfl
      · exact absurd ((hc.eq_of_equiv hk hq (by simpa using h3) (by simpa using h4)).symm.trans
          hkp) hqp

theorem mem_mapKeys_pushBack {comp : Price → Price → Bool} {m : PriceMap} {p q : Price}
    {o : Order} (h : q ∈ mapKeys (mapPushBack comp m p o)) : q = p ∨ q ∈ mapKeys m := by
  induction m with
  | nil => simpa [mapPushBack, mapKeys] using h
  | cons e rest ih =>
    obtain ⟨k, b⟩ := e
    simp only [mapPushBack] at h
    split_ifs at h with h1 h2
    · simp only [mapKeys, List.map_cons, List.mem_cons] at h ih ⊢
      rcases h with h | h
      · exact Or.inr (Or.inl h)
      · rcases ih h with h | h
        · exact Or.inl h
        · exact Or.inr (Or.inr h)
    · simp only [mapKeys, List.map_cons, List.mem_cons] at h ⊢
      tauto
    · right
      simpa [mapKeys] using h

theorem mapSorted_pushBack {comp : Price → Price → Bool} (hc : StrictTotal comp) {m : PriceMap}
    (p : Price) (o : Order) (hs : MapSorted comp m) : MapSorted comp (mapPushBack comp m p o) := by
  induction m with
  | nil => simp [mapPushBack, MapSorted, mapKeys]
  | cons e rest ih =>
    obtain ⟨k, b⟩ := e
    have hhead := mapSorted_head hs
    have htail := mapSorted_tail hs
    simp only [mapPushBack]
    split_ifs with h1 h2
    · have ih1 := ih htail
      simp only [MapSorted, mapKeys, List.map_cons, List.pairwise_cons] at ih1 ⊢
      refine ⟨?_, ih1⟩
      intro q hq
      rcases mem_mapKeys_pushBack hq with rfl | hq
      · exact h1
      · exact hhead q hq
    · simp only [MapSorted, mapKeys, List.map_cons, List.pairwise_cons, List.mem_cons] at hs ⊢
      refine ⟨?_, hs⟩
      rintro q (rfl | hq)
      · exact h2
      · exact hc.trans _ _ _ h2 (hs.1 q hq)
    · simpa [MapSorted, mapKeys] using hs

theorem mapKeys_assign (comp : Price → Price → Bool) (m : PriceMap) (p : Price)
    (b : List Order) : mapKeys (mapAssign comp m p b) = mapKeys m := by
  induction m with
  | nil => rfl
  | cons e rest ih =>
    obtain ⟨k, b0⟩ := e
    simp only [mapAssign]
    split_ifs with h1 h2
    · simp only [mapKeys, List.map_cons] at ih ⊢
      rw [ih]
    · rfl
    · rfl

theorem mapSorted_assign {comp : Price → Price → Bool} {m : PriceMap} (p : Price)
    (b : List Order) (hs : MapSorted comp m) : MapSorted comp (mapAssign comp m p b) := by
  unfold MapSorted
  rw [mapKeys_assign]
  exact hs

theorem mapFind_assign_self (comp : Price → Price → Bool) (m : PriceMap) (p : Price)
    (b : List Order) :
    mapFind comp (mapAssign comp m p b) p = (mapFind comp m p).map (fun _ => b) := by
  induction m with
  | nil => rfl
  | cons e rest ih =>
    obtain ⟨k, b0⟩ := e
    simp only [mapAssign]
    split_ifs with h1 h2
    · simp only [mapFind, h1, if_true, ih]
    · simp [mapFind, h1, h2]
    · simp [mapFind, h1, h2]

theorem mapFind_assign_other {comp : Price → Price → Bool} (hc : StrictTotal comp)
    {m : PriceMap} (hnum : ∀ k ∈ mapKeys m, k ≠ Price.nan) {p q : Price}
    (hp : p ≠ Price.nan) (hq : q ≠ Price.nan) (b : List Order) (hqp : q ≠ p) :
    mapFind comp (mapAssign comp m p b) q = mapFind comp m q := by
  induction m with
  | nil => rfl
  | cons e rest ih =>
    obtain ⟨k, b0⟩ := e
    have hk : k ≠ Price.nan := hnum k (List.mem_cons_self _ _)
    have hrest : ∀ k1 ∈ mapKeys rest, k1 ≠ Price.nan :=
      fun k1 h1 => hnum k1 (List.mem_cons_of_mem _ h1)
    simp only [mapAssign]
    split_ifs with h1 h2
    · simp only [mapFind, ih hrest]
    · rfl
    · have hkp : k = p := hc.eq_of_equiv hk hp (by simpa using h1) (by simpa using h2)
      simp only [mapFind]
      split_ifs with h3 h4
      · rfl
      · rfl
      · exact absurd ((hc.eq_of_equiv hk hq (by simpa using h3) (by simpa using h4)).symm.trans
          hkp) hqp

theorem mapKeys_erase_sublist (comp : Price → Price → Bool) (m : PriceMap) (p : Price) :
    (mapKeys (mapErase comp m p)).Sublist (mapKeys m) :=
  List.Sublist.map _ (List.filter_sublist _)

theorem mapSorted_erase {comp : Price → Price → Bool} {m : PriceMap} (p : Price)
    (hs : MapSorted comp m) : MapSorted comp (mapErase comp m p) :=
  List.Pairwise.sublist (mapKeys_erase_sublist comp m p) hs

theorem mapFind_erase_self (comp : Price → Price → Bool) (m : PriceMap) (p : Price) :
    mapFind comp (mapErase comp m p) p = none := by
  induction m with
  | nil => rfl
  | cons e rest ih =>
    obtain ⟨k, b0⟩ := e
    simp only [mapErase, List.filter_cons] at ih ⊢
    split_ifs with h1
    · simp only [mapFind]
      split_ifs with h2 h3
      · exact ih
      · rfl
      · simp only [Bool.or_eq_true] at h1
        rcases h1 with h1 | h1
        · exact absurd h1 h2
        · exact absurd h1 h3
    · exact ih

theorem mapFind_erase_other {comp : Price → Price → Bool} (hc : StrictTotal comp)
    {m : PriceMap} (hs : MapSorted comp m) (hnum : ∀ k ∈ mapKeys m, k ≠ Price.nan)
    {p q : Price} (hp : p ≠ Price.nan) (hq : q ≠ Price.nan) (hqp : q ≠ p) :
    mapFind comp (mapErase comp m p) q = mapFind comp m q := by
  induction m with
  | nil => rfl
  | cons e rest ih =>
    obtain ⟨k, b0⟩ := e
    have hk : k ≠ Price.nan := hnum k (List.mem_cons_self _ _)
    have hrest : ∀ k1 ∈ mapKeys rest, k1 ≠ Price.nan :=
      fun k1 h1 => hnum k1 (List.mem_cons_of_mem _ h1)
    have hhead := mapSorted_head hs
    have ih1 := ih (mapSorted_tail hs) hrest
    simp only [mapErase, List.filter_cons] at ih1 ⊢
    split_ifs with h1
    · simp only [mapFind, ih1]
    · simp only [Bool.or_eq_true, not_or] at h1
      have hkp : k = p := hc.eq_of_equiv hk hp (by simpa using h1.1) (by simpa using h1.2)
      subst hkp
      rw [ih1]
      simp only [mapFind]
      split_ifs with h2 h3
      · rfl
      · cases hf : mapFind comp rest q with
        | none => rfl
        | some b1 =>
          exfalso
          have hmem := mem_mapKeys_of_mapFind hc hrest hq hf
          have := hc.trans _ _ _ h3 (hhead q hmem)
          rw [hc.irrefl] at this
          exact Bool.noConfusion this
      · exact absurd (hc.eq_of_equiv hk hq (by simpa using h2) (by simpa using h3)).symm hqp

theorem mapFind_removed {comp : Price → Price → Bool} (hc : StrictTotal comp) {m : PriceMap}
    (hs : MapSorted comp m) (hnum : ∀ k ∈ mapKeys m, k ≠ Price.nan) {p : Price}
    (hp : p ≠ Price.nan) {b : List Order} (b1 : List Order) {q : Price}
    (hq : q ≠ Price.nan) (hb : mapFind comp m p = some b) :
    mapFind comp
        (if b1.isEmpty then mapErase comp (mapAssign comp m p b1) p
          else mapAssign comp m p b1) q =
      if q = p then (if b1 = [] then none else some b1) else mapFind comp m q := by
  have hnum1 : ∀ k ∈ mapKeys (mapAssign comp m p b1), k ≠ Price.nan := by
    rw [mapKeys_assign]
    exact hnum
  by_cases hqp : q = p
  · subst hqp
    by_cases he : b1 = []
    · subst he
      simp [mapFind_erase_self]
    · simp [he, mapFind_assign_self, hb]
  · by_cases he : b1 = []
    · subst he
      simp [hqp, mapFind_erase_other hc (mapSorted_assign p [] hs) hnum1 hp hq hqp,
        mapFind_assign_other hc hnum hp hq _ hqp]
    · simp [he, hqp, mapFind_assign_other hc hnum hp hq _ hqp]

theorem mapSorted_removed {comp : Price → Price → Bool} {m : PriceMap}
    (hs : MapSorted comp m) (p : Price) (b1 : List Order) :
    MapSorted comp
      (if b1.isEmpty then mapErase comp (mapAssign comp m p b1) p
        else mapAssign comp m p b1) := by
  split_ifs
  · exact mapSorted_erase p (mapSorted_assign p b1 hs)
  · exact mapSorted_assign p b1 hs

theorem mapKeys_removed_subset {comp : Price → Price → Bool} {m : PriceMap} (p : Price)
    (b1 : List Order) {k : Price}
    (hk : k ∈ mapKeys (if b1.isEmpty then mapErase comp (mapAssign comp m p b1) p
      else mapAssign comp m p b1)) : k ∈ mapKeys m := by
  split_ifs at hk
  · have := (mapKeys_erase_sublist comp (mapAssign comp m p b1) p).subset hk
    rw [mapKeys_assign] at this
    exact this
  · rw [mapKeys_assign] at hk
    exact hk

theorem mapKeys_nodup {comp : Price → Price → Bool} (hc : StrictTotal comp) {m : PriceMap}
    (hs : MapSorted comp m) : (mapKeys m).Nodup := by
  refine List.Pairwise.imp ?_ hs
  intro a b hab heq
  rw [heq, hc.irrefl] at hab
  exact Bool.noConfusion hab

/-! ## Swap-with-last removal -/

theorem swapPop_eq {v : List Order} {i : Nat} (hi : i < v.length) :
    ∃ last, v.getLast? = some last ∧ swapPop v i = (v.set i last).dropLast := by
  cases hv : v.getLast? with
  | none =>
    rw [List.getLast?_eq_none_iff] at hv
    subst hv
    simp at hi
  | some last => exact ⟨last, rfl, by simp [swapPop, hv]⟩

theorem swapPop_length {v : List Order} {i : Nat} (hi : i < v.length) :
    (swapPop v i).length = v.length - 1 := by
  obtain ⟨last, -, h⟩ := swapPop_eq hi
  simp [h]

theorem swapPop_getElem? {v : List Order} {i j : Nat} (hi : i < v.length)
    (hj : j < v.length - 1) :
    (swapPop v i)[j]? = if j = i then v[v.length - 1]? else v[j]? := by
  obtain ⟨last, hl, h⟩ := swapPop_eq hi
  rw [List.getLast?_eq_getElem?] at hl
  rw [h, List.dropLast_eq_take, List.getElem?_take]
  simp only [List.length_set, hj, if_true]
  rw [List.getElem?_set]
  by_cases hji : j = i
  · subst hji
    simp [hi, hl]
  · simp [hji, Ne.symm hji]

theorem getElem?_lt {b : List Order} {i : Nat} {o : Order} (h : b[i]? = some o) :
    i < b.length := by
  by_contra hc
  rw [List.getElem?_eq_none (not_lt.mp hc)] at h
  exact Option.noConfusion h

theorem swapPop_get {b : List Order} {i j : Nat} {o : Order} (hi : i < b.length)
    (h : (swapPop b i)[j]? = some o) :
    j < b.length - 1 ∧ (if j = i then b[b.length - 1]? else b[j]?) = some o := by
  have hj := getElem?_lt h
  rw [swapPop_length hi] at hj
  rw [swapPop_getElem? hi hj] at h
  exact ⟨hj, h⟩

theorem swapPop_ne_nil {b : List Order} {i j : Nat} (hi : i < b.length)
    (hj : j < b.length - 1) : swapPop b i ≠ [] := by
  intro h
  have h1 := swapPop_length hi
  rw [h] at h1
  simp only [List.length_nil] at h1
  omega

theorem bucket_last {b : List Order} {i : Nat} {o : Order} (h : b[i]? = some o) :
    ∃ last, b[b.length - 1]? = some last := by
  have hi := getElem?_lt h
  exact ⟨b[b.length - 1], List.getElem?_eq_getElem (by omega)⟩

/-! ## The three mutating calls, case by case -/

theorem sideFind (s : OrderBook) (loc : OrderLocation) :
    (if loc.is_buy then mapFind greater s.bid_side loc.price
      else mapFind less s.ask_side loc.price) = bucketAt s loc.is_buy loc.price := by
  unfold bucketAt compOf sideOf
  split_ifs <;> rfl

theorem bucketAt_true (s : OrderBook) (p : Price) :
    bucketAt s true p = mapFind greater s.bid_side p := rfl

theorem bucketAt_false (s : OrderBook) (p : Price) :
    bucketAt s false p = mapFind less s.ask_side p := rfl

theorem createOrder_invalid (s : OrderBook) (t : OrderType) (p : Price) (q now : Nat)
    (h : p ≤ 0 ∨ q = 0) : createOrder s t p q now = (.error .invalid_argument, s) := by
  simp only [createOrder, if_pos h]

theorem createOrder_valid (s : OrderBook) (t : OrderType) (p : Price) (q now : Nat)
    (h : ¬ (p ≤ 0 ∨ q = 0)) :
    createOrder s t p q now =
      (.ok s.order_id_counter,
        invalidate_best_prices
          { insertOrder { s with order_id_counter := s.order_id_counter + 1 }
              ⟨s.order_id_counter, t, p, q, now⟩ with
            total_orders := (s.total_orders + 1) % U64 }) := by
  simp only [createOrder, if_neg h, insertOrder]
  cases t <;> simp

theorem cancelOrder_unknown (s : OrderBook) (id : Nat) (h : s.order_lookup id = none) :
    cancelOrder s id = (false, s) := by
  simp only [cancelOrder, h]

theorem cancelOrder_found (s : OrderBook) (id : Nat) (loc : OrderLocation) (b : List Order)
    (h : s.order_lookup id = some loc)
    (hb : bucketAt s loc.is_buy loc.price = some b) (hi : loc.index < b.length) :
    cancelOrder s id = (true, removeOrder s id loc b) := by
  rw [← sideFind] at hb
  simp only [cancelOrder, h, hb, removeOrder, ge_iff_le, if_neg (not_le.mpr hi)]

theorem cancelOrder_cases (s : OrderBook) (id : Nat) :
    cancelOrder s id = (false, s) ∨
      ∃ loc b, s.order_lookup id = some loc ∧
        bucketAt s loc.is_buy loc.price = some b ∧ loc.index < b.length ∧
        cancelOrder s id = (true, removeOrder s id loc b) := by
  cases h : s.order_lookup id with
  | none => exact Or.inl (cancelOrder_unknown s id h)
  | some loc =>
    cases hb : bucketAt s loc.is_buy loc.price with
    | none =>
      left
      simp only [cancelOrder, h, sideFind, hb]
    | some b =>
      by_cases hi : loc.index < b.length
      · exact Or.inr ⟨loc, b, rfl, hb, hi, cancelOrder_found s id loc b h hb hi⟩
      · left
        simp only [cancelOrder, h, sideFind, hb, ge_iff_le, if_pos (not_lt.mp hi)]

theorem updateOrder_invalid (s : OrderBook) (id : Nat) (p : Price) (now : Nat) (h : p ≤ 0) :
    updateOrder s id p now = (.error .invalid_argument, s) := by
  simp only [updateOrder, if_pos h]

theorem updateOrder_unknown (s : OrderBook) (id : Nat) (p : Price) (now : Nat) (hp : ¬ p ≤ 0)
    (h : s.order_lookup id = none) : updateOrder s id p now = (.ok false, s) := by
  simp only [updateOrder, if_neg hp, h]

theorem updateOrder_same (s : OrderBook) (id : Nat) (loc : OrderLocation) (p : Price)
    (now : Nat) (hp : ¬ p ≤ 0) (h : s.order_lookup id = some loc)
    (he : Price.eq loc.price p = true) : updateOrder s id p now = (.ok true, s) := by
  simp only [updateOrder, if_neg hp, h, he, if_true]

theorem updateOrder_moved (s : OrderBook) (id : Nat) (loc : OrderLocation) (b : List Order)
    (o : Order) (p : Price) (now : Nat) (hp : ¬ p ≤ 0) (h : s.order_lookup id = some loc)
    (hne : Price.eq loc.price p = false) (hb : bucketAt s loc.is_buy loc.price = some b)
    (ho : b[loc.index]? = some o) :
    updateOrder s id p now =
      (.ok true, invalidate_best_prices
        (insertOrder (removeOrder s id loc b) ⟨id, o.order_type, p, o.quantity, now⟩)) := by
  have hc := cancelOrder_found s id loc b h hb (getElem?_lt ho)
  rw [← sideFind] at hb
  simp only [updateOrder, if_neg hp, h, hne, Bool.false_eq_true, if_false, hb,
    Option.some_bind, ho, hc, insertOrder]

theorem updateOrder_cases (s : OrderBook) (id : Nat) (p : Price) (now : Nat) :
    (∃ r, updateOrder s id p now = (r, s) ∧ (¬ p ≤ 0 → r ≠ .error .invalid_argument)) ∨
      ∃ loc b o, s.order_lookup id = some loc ∧ ¬ p ≤ 0 ∧ Price.eq loc.price p = false ∧
        bucketAt s loc.is_buy loc.price = some b ∧ b[loc.index]? = some o ∧
        updateOrder s id p now =
          (.ok true, invalidate_best_prices
            (insertOrder (removeOrder s id loc b) ⟨id, o.order_type, p, o.quantity, now⟩)) := by
  by_cases hp : p ≤ 0
  · exact Or.inl ⟨_, updateOrder_invalid s id p now hp, fun h => absurd hp h⟩
  cases h : s.order_lookup id with
  | none =>
    exact Or.inl ⟨_, updateOrder_unknown s id p now hp h, fun _ he => Except.noConfusion he⟩
  | some loc =>
    cases hsame : Price.eq loc.price p with
    | true =>
      exact Or.inl ⟨_, updateOrder_same s id loc p now hp h hsame,
        fun _ he => Except.noConfusion he⟩
    | false =>
      cases hb : bucketAt s loc.is_buy loc.price with
      | none =>
        left
        refine ⟨.error .out_of_bounds, ?_, fun _ he => ?_⟩
        · simp only [updateOrder, if_neg hp, h, hsame, Bool.false_eq_true, if_false, sideFind,
            hb, Option.none_bind]
        · exact Failure.noConfusion (Except.error.inj he)
      | some b =>
        cases ho : b[loc.index]? with
        | none =>
          left
          refine ⟨.error .out_of_bounds, ?_, fun _ he => ?_⟩
          · simp only [updateOrder, if_neg hp, h, hsame, Bool.false_eq_true, if_false,
              sideFind, hb, Option.some_bind, ho]
          · exact Failure.noConfusion (Except.error.inj he)
        | some o =>
          exact Or.inr ⟨loc, b, o, rfl, hp, hsame, hb, ho,
            updateOrder_moved s id loc b o p now hp h hsame hb ho⟩

/-! ## What an insertion does to the maps and the index -/

theorem insertOrder_find_self (s : OrderBook) (o : Order) :
    bucketAt (insertOrder s o) (isBuy o.order_type) o.price =
      some ((bucketAt s (isBuy o.order_type) o.price).getD [] ++ [o]) := by
  cases hot : o.order_type <;>
    simp [insertOrder, bucketAt, sideOf, compOf, isBuy, hot,
      mapFind_pushBack_self strictTotal_greater, mapFind_pushBack_self strictTotal_less]

theorem insertOrder_find {s : OrderBook}
    (hnum : ∀ ib, ∀ k ∈ mapKeys (sideOf s ib), k ≠ Price.nan) (o : Order)
    (ho : o.price ≠ Price.nan) (ib : Bool) {p : Price} (hp : p ≠ Price.nan) :
    bucketAt (insertOrder s o) ib p =
      if ib = isBuy o.order_type ∧ p = o.price then
        some ((bucketAt s ib p).getD [] ++ [o])
      else bucketAt s ib p := by
  by_cases hc : ib = isBuy o.order_type ∧ p = o.price
  · rw [if_pos hc, hc.1, hc.2]
    exact insertOrder_find_self s o
  · rw [if_neg hc]
    have hb := hnum true
    have ha := hnum false
    simp only [sideOf, if_true, Bool.false_eq_true, if_false] at hb ha
    cases hot : o.order_type <;> cases ib <;>
      simp_all [insertOrder, bucketAt, sideOf, compOf, isBuy,
        mapFind_pushBack_other strictTotal_greater hb ho hp,
        mapFind_pushBack_other strictTotal_less ha ho hp]

theorem insertOrder_lookup (s : OrderBook) (o : Order) :
    (insertOrder s o).order_lookup =
      Function.update s.order_lookup o.order_id
        (some ⟨o.price, ((bucketAt s (isBuy o.order_type) o.price).getD []).length,
          isBuy o.order_type⟩) := by
  cases hot : o.order_type <;>
    simp [insertOrder, bucketAt, sideOf, compOf, isBuy, hot,
      mapFind_pushBack_self strictTotal_greater, mapFind_pushBack_self strictTotal_less]

theorem insertOrder_counter (s : OrderBook) (o : Order) :
    (insertOrder s o).order_id_counter = s.order_id_counter := by
  unfold insertOrder
  split_ifs <;> rfl

theorem insertOrder_total (s : OrderBook) (o : Order) :
    (insertOrder s o).total_orders = s.total_orders := by
  unfold insertOrder
  split_ifs <;> rfl

theorem insertOrder_sorted {s : OrderBook} (hb : MapSorted greater s.bid_side)
    (ha : MapSorted less s.ask_side) (o : Order) :
    MapSorted greater (insertOrder s o).bid_side ∧ MapSorted less (insertOrder s o).ask_side := by
  unfold insertOrder
  split_ifs
  · exact ⟨mapSorted_pushBack strictTotal_greater _ _ hb, ha⟩
  · exact ⟨hb, mapSorted_pushBack strictTotal_less _ _ ha⟩

theorem insertOrder_numeric {s : OrderBook}
    (hnum : ∀ ib, ∀ k ∈ mapKeys (sideOf s ib), k ≠ Price.nan) (o : Order)
    (ho : o.price ≠ Price.nan) :
    ∀ ib, ∀ k ∈ mapKeys (sideOf (insertOrder s o) ib), k ≠ Price.nan := by
  intro ib k hk
  have hb := hnum true
  have ha := hnum false
  simp only [sideOf, if_true, Bool.false_eq_true, if_false] at hb ha
  unfold insertOrder at hk
  split_ifs at hk with hot
  · cases ib
    · exact ha k hk
    · rcases mem_mapKeys_pushBack (by simpa [sideOf] using hk) with h | h
      · rw [h]
        exact ho
      · exact hb k h
  · cases ib
    · rcases mem_mapKeys_pushBack (by simpa [sideOf] using hk) with h | h
      · rw [h]
        exact ho
      · exact ha k h
    · exact hb k hk

/-! ## The invariant is kept by an insertion -/

theorem inv_insertOrder {s : OrderBook} (hs : Inv s) (o : Order)
    (hnew : s.order_lookup o.order_id = none) (hid : o.order_id < s.order_id_counter)
    (hp : 0 < o.price) (hq : 0 < o.quantity) : Inv (insertOrder s o) := by
  have hon : o.price ≠ Price.nan := pos_ne_nan hp
  have hfind : ∀ (ib : Bool) {p : Price}, p ≠ Price.nan → _ :=
    fun ib {p} hpn => insertOrder_find hs.numeric o hon ib hpn
  have hlook := insertOrder_lookup s o
  have hother : ∀ {ib : Bool} {p : Price} {b : List Order} {i : Nat} {o1 : Order},
      p ≠ Price.nan → bucketAt s ib p = some b → b[i]? = some o1 →
      o1.order_id ≠ o.order_id := by
    intro ib p b i o1 hpn hb ho heq
    have h1 := hs.indexed ib p b i o1 hpn hb ho
    rw [heq, hnew] at h1
    exact Option.noConfusion h1
  refine ⟨(insertOrder_sorted hs.bid_sorted hs.ask_sorted o).1,
    (insertOrder_sorted hs.bid_sorted hs.ask_sorted o).2,
    insertOrder_numeric hs.numeric o hon, ?_, ?_, ?_, ?_, ?_, ?_⟩
  · intro id loc h
    rw [hlook] at h
    by_cases hido : id = o.order_id
    · subst hido
      rw [Function.update_same] at h
      have h1 := Option.some.inj h
      subst h1
      exact hon
    · rw [Function.update_noteq hido] at h
      exact hs.loc_numeric id loc h
  · intro id loc h
    rw [hlook] at h
    by_cases hido : id = o.order_id
    · subst hido
      rw [Function.update_same] at h
      have h1 := Option.some.inj h
      subst h1
      refine ⟨(bucketAt s (isBuy o.order_type) o.price).getD [] ++ [o], o, ?_, ?_, rfl⟩
      · exact insertOrder_find_self s o
      · simp
    · rw [Function.update_noteq hido] at h
      obtain ⟨b, o1, hb, ho, hio⟩ := hs.located id loc h
      have hi : loc.index < b.length := getElem?_lt ho
      rw [hfind _ (hs.loc_numeric id loc h)]
      split_ifs with hc
      · refine ⟨_, o1, rfl, ?_, hio⟩
        rw [hb, Option.getD_some, List.getElem?_append_left hi]
        exact ho
      · exact ⟨b, o1, hb, ho, hio⟩
  · intro ib p b i o1 hpn hb ho
    rw [hfind ib hpn] at hb
    rw [hlook]
    split_ifs at hb with hc
    · have hb1 := Option.some.inj hb
      subst hb1
      cases hf : bucketAt s ib p with
      | none =>
        rw [hf] at ho
        simp only [Option.getD_none, List.nil_append] at ho
        cases i with
        | zero =>
          simp only [List.getElem?_cons_zero, Option.some.injEq] at ho
          subst ho
          rw [Function.update_same, ← hc.1, ← hc.2, hf]
          rfl
        | succ n => simp at ho
      | some old =>
        rw [hf] at ho
        simp only [Option.getD_some] at ho
        rcases Nat.lt_trichotomy i old.length with hlt | heq | hgt
        · rw [List.getElem?_append_left hlt] at ho
          rw [Function.update_noteq (hother hpn hf ho)]
          exact hs.indexed ib p old i o1 hpn hf ho
        · subst heq
          simp only [List.getElem?_concat_length, Option.some.injEq] at ho
          subst ho
          rw [Function.update_same, ← hc.1, ← hc.2, hf]
          rfl
        · rw [List.getElem?_eq_none (by simp; omega)] at ho
          exact Option.noConfusion ho
    · rw [Function.update_noteq (hother hpn hb ho)]
      exact hs.indexed ib p b i o1 hpn hb ho
  · intro id loc h
    rw [hlook] at h
    rw [insertOrder_counter]
    by_cases hido : id = o.order_id
    · rw [hido]
      exact hid
    · rw [Function.update_noteq hido] at h
      exact hs.fresh id loc h
  · intro ib p b hpn hb
    rw [hfind ib hpn] at hb
    split_ifs at hb with hc
    · have hb1 := Option.some.inj hb
      subst hb1
      simp
    · exact hs.nonempty ib p b hpn hb
  · intro ib p b o1 hpn hb ho
    rw [hfind ib hpn] at hb
    split_ifs at hb with hc
    · have hb1 := Option.some.inj hb
      subst hb1
      rcases List.mem_append.mp ho with hold | hlast
      · cases hf : bucketAt s ib p with
        | none =>
          rw [hf] at hold
          simp at hold
        | some old =>
          rw [hf] at hold
          exact hs.typed ib p old o1 hpn hf hold
      · rw [List.mem_singleton] at hlast
        subst hlast
        exact ⟨hc.1.symm, hc.2.symm, hc.2 ▸ hp, hq⟩
    · exact hs.typed ib p b o1 hpn hb ho

/-! ## What a removal does to the maps and the index -/

theorem removeOrder_sides (s : OrderBook) (id : Nat) (loc : OrderLocation) (b : List Order) :
    sideOf (removeOrder s id loc b) loc.is_buy =
        (if (swapPop b loc.index).isEmpty then
          mapErase (compOf loc.is_buy)
            (mapAssign (compOf loc.is_buy) (sideOf s loc.is_buy) loc.price
              (swapPop b loc.index)) loc.price
        else mapAssign (compOf loc.is_buy) (sideOf s loc.is_buy) loc.price
          (swapPop b loc.index)) ∧
      sideOf (removeOrder s id loc b) (!loc.is_buy) = sideOf s (!loc.is_buy) := by
  cases hib : loc.is_buy <;> simp [removeOrder, sideOf, compOf, invalidate_best_prices, hib]

theorem side_sorted {s : OrderBook} (hbs : MapSorted greater s.bid_side)
    (has : MapSorted less s.ask_side) (ib : Bool) : MapSorted (compOf ib) (sideOf s ib) := by
  cases ib
  · simpa [sideOf, compOf] using has
  · simpa [sideOf, compOf] using hbs

theorem removeOrder_find {s : OrderBook} (hbs : MapSorted greater s.bid_side)
    (has : MapSorted less s.ask_side)
    (hnum : ∀ ib, ∀ k ∈ mapKeys (sideOf s ib), k ≠ Price.nan) (id : Nat)
    {loc : OrderLocation} (hl : loc.price ≠ Price.nan) {b : List Order}
    (hb : bucketAt s loc.is_buy loc.price = some b) (ib : Bool) {p : Price}
    (hp : p ≠ Price.nan) :
    bucketAt (removeOrder s id loc b) ib p =
      if ib = loc.is_buy ∧ p = loc.price then
        (if swapPop b loc.index = [] then none else some (swapPop b loc.index))
      else bucketAt s ib p := by
  have hsides := removeOrder_sides s id loc b
  by_cases hib : ib = loc.is_buy
  · subst hib
    unfold bucketAt
    rw [hsides.1]
    have h2 := mapFind_removed (strictTotal_compOf loc.is_buy) (side_sorted hbs has loc.is_buy)
      (hnum loc.is_buy) hl (swapPop b loc.index) hp hb
    simpa using h2
  · have hib1 : ib = !loc.is_buy := by
      cases ib <;> cases h : loc.is_buy <;> simp_all
    rw [if_neg (fun hc => hib hc.1)]
    unfold bucketAt
    rw [hib1, hsides.2]

theorem removeOrder_sorted {s : OrderBook} (hbs : MapSorted greater s.bid_side)
    (has : MapSorted less s.ask_side) (id : Nat) (loc : OrderLocation) (b : List Order) :
    MapSorted greater (removeOrder s id loc b).bid_side ∧
      MapSorted less (removeOrder s id loc b).ask_side := by
  have hsides := removeOrder_sides s id loc b
  cases hib : loc.is_buy
  · rw [hib] at hsides
    constructor
    · have h2 := hsides.2
      simp only [sideOf, Bool.not_false, if_true] at h2
      rw [h2]
      exact hbs
    · have h1 := hsides.1
      simp only [sideOf, compOf, Bool.false_eq_true, if_false] at h1
      rw [h1]
      exact mapSorted_removed has _ _
  · rw [hib] at hsides
    constructor
    · have h1 := hsides.1
      simp only [sideOf, compOf, if_true] at h1
      rw [h1]
      exact mapSorted_removed hbs _ _
    · have h2 := hsides.2
      simp only [sideOf, Bool.not_true, Bool.false_eq_true, if_false] at h2
      rw [h2]
      exact has

theorem removeOrder_numeric {s : OrderBook}
    (hnum : ∀ ib, ∀ k ∈ mapKeys (sideOf s ib), k ≠ Price.nan) (id : Nat)
    (loc : OrderLocation) (b : List Order) :
    ∀ ib, ∀ k ∈ mapKeys (sideOf (removeOrder s id loc b) ib), k ≠ Price.nan := by
  intro ib k hk
  have hsides := removeOrder_sides s id loc b
  by_cases hib : ib = loc.is_buy
  · subst hib
    rw [hsides.1] at hk
    exact hnum _ k (mapKeys_removed_subset _ _ hk)
  · have hib1 : ib = !loc.is_buy := by
      cases ib <;> cases h : loc.is_buy <;> simp_all
    rw [hib1, hsides.2] at hk
    exact hnum _ k hk

theorem removeOrder_counter (s : OrderBook) (id : Nat) (loc : OrderLocation) (b : List Order) :
    (removeOrder s id loc b).order_id_counter = s.order_id_counter := rfl

theorem removeOrder_total (s : OrderBook) (id : Nat) (loc : OrderLocation) (b : List Order) :
    (removeOrder s id loc b).total_orders = (s.total_orders + U64 - 1) % U64 := rfl

theorem removeOrder_lookup {s : OrderBook} (hs : Inv s) {id : Nat} {loc : OrderLocation}
    {b : List Order} (h : s.order_lookup id = some loc)
    (hb : bucketAt s loc.is_buy loc.price = some b) {last : Order}
    (hlast : b[b.length - 1]? = some last) :
    (removeOrder s id loc b).order_lookup =
      Function.update
        (Function.update s.order_lookup last.order_id
          (some ⟨loc.price, loc.index, loc.is_buy⟩)) id none := by
  have hl := hs.loc_numeric id loc h
  obtain ⟨b0, o, hb0, ho, hid⟩ := hs.located id loc h
  rw [hb] at hb0
  have hbb := Option.some.inj hb0
  subst hbb
  have hi := getElem?_lt ho
  have hL := hs.indexed loc.is_buy loc.price b (b.length - 1) last hl hb hlast
  show Function.update
      (if h : loc.index < (swapPop b loc.index).length then
        setIndex s.order_lookup ((swapPop b loc.index)[loc.index]).order_id loc.index
      else s.order_lookup) id none = _
  by_cases hlt : loc.index < (swapPop b loc.index).length
  · rw [dif_pos hlt]
    have hlt1 : loc.index < b.length - 1 := by
      rw [swapPop_length hi] at hlt
      exact hlt
    have hget : (swapPop b loc.index)[loc.index] = last := by
      have h1 := swapPop_getElem? hi hlt1
      rw [if_pos rfl, hlast, List.getElem?_eq_getElem hlt] at h1
      exact Option.some.inj h1
    rw [hget]
    simp only [setIndex, hL]
  · rw [dif_neg hlt]
    have heq : loc.index = b.length - 1 := by
      rw [swapPop_length hi] at hlt
      omega
    rw [← heq, ho] at hlast
    have hol := Option.some.inj hlast
    subst hol
    rw [hid, Function.update_idem]

/-! ## The invariant is kept by a removal -/

theorem inv_removeOrder {s : OrderBook} (hs : Inv s) {id : Nat} {loc : OrderLocation}
    {b : List Order} (h : s.order_lookup id = some loc)
    (hb : bucketAt s loc.is_buy loc.price = some b) : Inv (removeOrder s id loc b) := by
  have hl := hs.loc_numeric id loc h
  obtain ⟨b0, oi, hb0, hoi, hid⟩ := hs.located id loc h
  rw [hb] at hb0
  have hbb := Option.some.inj hb0
  subst hbb
  have hi := getElem?_lt hoi
  have hn : b.length - 1 < b.length := by omega
  have hlast : b[b.length - 1]? = some (b[b.length - 1]) := List.getElem?_eq_getElem hn
  generalize b[b.length - 1] = last at hlast
  have hL := removeOrder_lookup hs h hb hlast
  have hF : ∀ (ib : Bool) {p : Price}, p ≠ Price.nan → _ :=
    fun ib {p} hpn => removeOrder_find hs.bid_sorted hs.ask_sorted hs.numeric id hl hb ib hpn
  have K : ∀ {j1 j2 : Nat} {o1 o2 : Order}, b[j1]? = some o1 → b[j2]? = some o2 →
      o1.order_id = o2.order_id → j1 = j2 := by
    intro j1 j2 o1 o2 h1 h2 he
    have e1 := hs.indexed _ _ b j1 o1 hl hb h1
    have e2 := hs.indexed _ _ b j2 o2 hl hb h2
    rw [he, e2] at e1
    simp only [Option.some.injEq, OrderLocation.mk.injEq] at e1
    exact e1.2.1.symm
  have Kout : ∀ {ib1 : Bool} {p1 : Price} {b1 : List Order} {j1 j2 : Nat} {o1 o2 : Order},
      p1 ≠ Price.nan → bucketAt s ib1 p1 = some b1 → b1[j1]? = some o1 → b[j2]? = some o2 →
      ¬ (ib1 = loc.is_buy ∧ p1 = loc.price) → o1.order_id ≠ o2.order_id := by
    intro ib1 p1 b1 j1 j2 o1 o2 hp1 h1 h2 h3 hne he
    have e1 := hs.indexed _ _ b1 j1 o1 hp1 h1 h2
    have e2 := hs.indexed _ _ b j2 o2 hl hb h3
    rw [he, e2] at e1
    simp only [Option.some.injEq, OrderLocation.mk.injEq] at e1
    exact hne ⟨e1.2.2.symm, e1.1.symm⟩
  refine ⟨(removeOrder_sorted hs.bid_sorted hs.ask_sorted id loc b).1,
    (removeOrder_sorted hs.bid_sorted hs.ask_sorted id loc b).2,
    removeOrder_numeric hs.numeric id loc b, ?_, ?_, ?_, ?_, ?_, ?_⟩
  · intro id1 loc1 h1
    rw [hL] at h1
    by_cases e1 : id1 = id
    · rw [e1, Function.update_same] at h1
      exact Option.noConfusion h1
    rw [Function.update_noteq e1] at h1
    by_cases e2 : id1 = last.order_id
    · rw [e2, Function.update_same] at h1
      have h2 := Option.some.inj h1
      subst h2
      exact hl
    rw [Function.update_noteq e2] at h1
    exact hs.loc_numeric id1 loc1 h1
  · intro id1 loc1 h1
    rw [hL] at h1
    by_cases e1 : id1 = id
    · rw [e1, Function.update_same] at h1
      exact Option.noConfusion h1
    rw [Function.update_noteq e1] at h1
    by_cases e2 : id1 = last.order_id
    · rw [e2, Function.update_same] at h1
      have h2 := Option.some.inj h1
      subst h2
      have hlt : loc.index < b.length - 1 := by
        by_contra hc
        have heq : b.length - 1 = loc.index := by omega
        rw [heq, hoi] at hlast
        have h3 := Option.some.inj hlast
        rw [← h3, hid] at e2
        exact e1 e2
      have hget := swapPop_getElem? hi hlt
      rw [if_pos rfl, hlast] at hget
      refine ⟨swapPop b loc.index, last, ?_, hget, e2.symm⟩
      rw [hF _ hl]
      show (if loc.is_buy = loc.is_buy ∧ loc.price = loc.price then _ else _) = _
      rw [if_pos ⟨rfl, rfl⟩, if_neg (swapPop_ne_nil hi hlt)]
    rw [Function.update_noteq e2] at h1
    obtain ⟨b1, o1, hb1, ho1, hid1⟩ := hs.located id1 loc1 h1
    rw [hF _ (hs.loc_numeric id1 loc1 h1)]
    by_cases hc : loc1.is_buy = loc.is_buy ∧ loc1.price = loc.price
    · rw [hc.1, hc.2, hb] at hb1
      have h2 := Option.some.inj hb1
      subst h2
      have hj := getElem?_lt ho1
      have hj1 : loc1.index ≠ loc.index := by
        intro hc1
        exact e1 (by rw [← hid1, ← hid]; rw [hc1, hoi] at ho1; rw [Option.some.inj ho1])
      have hj2 : loc1.index ≠ b.length - 1 := by
        intro hc1
        exact e2 (by rw [← hid1]; rw [hc1, hlast] at ho1; rw [Option.some.inj ho1])
      have hlt : loc1.index < b.length - 1 := by omega
      have hget := swapPop_getElem? hi hlt
      rw [if_neg hj1, ho1] at hget
      rw [if_pos hc, if_neg (swapPop_ne_nil hi hlt)]
      exact ⟨_, o1, rfl, hget, hid1⟩
    · rw [if_neg hc]
      exact ⟨b1, o1, hb1, ho1, hid1⟩
  · intro ib1 p1 b1 j o hp1 hb1 ho
    rw [hF ib1 hp1] at hb1
    rw [hL]
    by_cases hc : ib1 = loc.is_buy ∧ p1 = loc.price
    · rw [if_pos hc] at hb1
      by_cases he : swapPop b loc.index = []
      · rw [if_pos he] at hb1
        exact Option.noConfusion hb1
      rw [if_neg he] at hb1
      have h2 := Option.some.inj hb1
      subst h2
      obtain ⟨hj, hget⟩ := swapPop_get hi ho
      by_cases hji : j = loc.index
      · rw [if_pos hji, hlast] at hget
        have h3 := Option.some.inj hget
        subst h3
        have e1 : last.order_id ≠ id := by
          intro hc1
          have := K hlast hoi (hc1.trans hid.symm)
          omega
        rw [Function.update_noteq e1, Function.update_same, hc.1, hc.2, hji]
      · rw [if_neg hji] at hget
        have e1 : o.order_id ≠ id := by
          intro hc1
          exact hji (K hget hoi (hc1.trans hid.symm))
        have e2 : o.order_id ≠ last.order_id := by
          intro hc1
          have := K hget hlast hc1
          omega
        rw [Function.update_noteq e1, Function.update_noteq e2]
        exact hs.indexed ib1 p1 b j o hp1 (by rw [hc.1, hc.2]; exact hb) hget
    · rw [if_neg hc] at hb1
      have e1 : o.order_id ≠ id := by
        rw [← hid]
        exact Kout hp1 hb1 ho hoi hc
      have e2 : o.order_id ≠ last.order_id := Kout hp1 hb1 ho hlast hc
      rw [Function.update_noteq e1, Function.update_noteq e2]
      exact hs.indexed ib1 p1 b1 j o hp1 hb1 ho
  · intro id1 loc1 h1
    rw [hL] at h1
    rw [removeOrder_counter]
    by_cases e1 : id1 = id
    · rw [e1, Function.update_same] at h1
      exact Option.noConfusion h1
    rw [Function.update_noteq e1] at h1
    by_cases e2 : id1 = last.order_id
    · rw [e2]
      exact hs.fresh _ _ (hs.indexed _ _ b _ last hl hb hlast)
    · rw [Function.update_noteq e2] at h1
      exact hs.fresh id1 loc1 h1
  · intro ib1 p1 b1 hp1 hb1
    rw [hF ib1 hp1] at hb1
    split_ifs at hb1 with hc he
    · have h2 := Option.some.inj hb1
      rw [← h2]
      exact he
    · exact hs.nonempty ib1 p1 b1 hp1 hb1
  · intro ib1 p1 b1 o hp1 hb1 ho
    rw [hF ib1 hp1] at hb1
    split_ifs at hb1 with hc he
    · have h2 := Option.some.inj hb1
      subst h2
      obtain ⟨j, hj⟩ := List.mem_iff_getElem?.mp ho
      obtain ⟨-, hget⟩ := swapPop_get hi hj
      have hmem : o ∈ b := by
        split_ifs at hget
        · exact List.mem_iff_getElem?.mpr ⟨_, hget⟩
        · exact List.mem_iff_getElem?.mpr ⟨_, hget⟩
      rw [hc.1, hc.2]
      exact hs.typed _ _ b o hl hb hmem
    · exact hs.typed ib1 p1 b1 o hp1 hb1 ho

/-! ## The invariant holds in every state reached without a NaN price -/

theorem Inv.transfer {s t : OrderBook} (hs : Inv s) (hb : t.bid_side = s.bid_side)
    (ha : t.ask_side = s.ask_side) (hl : t.order_lookup = s.order_lookup)
    (hc : s.order_id_counter ≤ t.order_id_counter) : Inv t := by
  have hside : ∀ ib, sideOf t ib = sideOf s ib := by
    intro ib
    simp only [sideOf, hb, ha]
  have hbucket : ∀ ib p, bucketAt t ib p = bucketAt s ib p := by
    intro ib p
    simp only [bucketAt, hside]
  refine ⟨hb ▸ hs.bid_sorted, ha ▸ hs.ask_sorted, ?_, ?_, ?_, ?_, ?_, ?_, ?_⟩
  · intro ib k hk
    rw [hside] at hk
    exact hs.numeric ib k hk
  · intro id loc h
    rw [hl] at h
    exact hs.loc_numeric id loc h
  · intro id loc h
    rw [hl] at h
    rw [hbucket]
    exact hs.located id loc h
  · intro ib p b i o hp h1 h2
    rw [hbucket] at h1
    rw [hl]
    exact hs.indexed ib p b i o hp h1 h2
  · intro id loc h
    rw [hl] at h
    exact lt_of_lt_of_le (hs.fresh id loc h) hc
  · intro ib p b hp h1
    rw [hbucket] at h1
    exact hs.nonempty ib p b hp h1
  · intro ib p b o hp h1 h2
    rw [hbucket] at h1
    exact hs.typed ib p b o hp h1 h2

theorem inv_empty : Inv OrderBook.empty := by
  refine ⟨?_, ?_, ?_, ?_, ?_, ?_, ?_, ?_, ?_⟩
  · simp [MapSorted, mapKeys, OrderBook.empty]
  · simp [MapSorted, mapKeys, OrderBook.empty]
  · intro ib k hk
    cases ib <;> simp [sideOf, mapKeys, OrderBook.empty] at hk
  · intro id loc h
    exact Option.noConfusion h
  · intro id loc h
    exact Option.noConfusion h
  · intro ib p b i o _ h
    cases ib <;> exact Option.noConfusion h
  · intro id loc h
    exact Option.noConfusion h
  · intro ib p b _ h
    cases ib <;> exact Option.noConfusion h
  · intro ib p b o _ h
    cases ib <;> exact Option.noConfusion h

theorem lookup_counter_none {s : OrderBook} (hs : Inv s) :
    s.order_lookup s.order_id_counter = none := by
  cases h : s.order_lookup s.order_id_counter with
  | none => rfl
  | some loc => exact absurd (hs.fresh _ loc h) (lt_irrefl _)

theorem inv_createOrder {s : OrderBook} (hs : Inv s) (t : OrderType) {p : Price}
    (hpn : p ≠ Price.nan) (q now : Nat) : Inv (createOrder s t p q now).2 := by
  by_cases h : p ≤ 0 ∨ q = 0
  · rw [createOrder_invalid s t p q now h]
    exact hs
  · rw [createOrder_valid s t p q now h]
    rw [not_or] at h
    have h1 : Inv { s with order_id_counter := s.order_id_counter + 1 } :=
      hs.transfer rfl rfl rfl (Nat.le_succ _)
    have h2 := inv_insertOrder h1 ⟨s.order_id_counter, t, p, q, now⟩ (lookup_counter_none hs)
      (Nat.lt_succ_self _) ((not_le_zero_iff hpn).mp h.1) (Nat.pos_of_ne_zero h.2)
    exact h2.transfer rfl rfl rfl (le_refl _)

theorem cancelOrder_known {s : OrderBook} (hs : Inv s) {id : Nat} {loc : OrderLocation}
    (h : s.order_lookup id = some loc) :
    ∃ b o, bucketAt s loc.is_buy loc.price = some b ∧ b[loc.index]? = some o ∧
      o.order_id = id ∧ cancelOrder s id = (true, removeOrder s id loc b) := by
  obtain ⟨b, o, hb, ho, hid⟩ := hs.located id loc h
  exact ⟨b, o, hb, ho, hid, cancelOrder_found s id loc b h hb (getElem?_lt ho)⟩

theorem inv_cancelOrder {s : OrderBook} (hs : Inv s) (id : Nat) : Inv (cancelOrder s id).2 := by
  cases h : s.order_lookup id with
  | none =>
    rw [cancelOrder_unknown s id h]
    exact hs
  | some loc =>
    obtain ⟨b, o, hb, -, -, hc⟩ := cancelOrder_known hs h
    rw [hc]
    exact inv_removeOrder hs h hb

theorem removeOrder_lookup_self (s : OrderBook) (id : Nat) (loc : OrderLocation)
    (b : List Order) : (removeOrder s id loc b).order_lookup id = none := by
  simp only [removeOrder, invalidate_best_prices, Function.update_same]

theorem inv_updateOrder {s : OrderBook} (hs : Inv s) (id : Nat) {p : Price}
    (hpn : p ≠ Price.nan) (now : Nat) : Inv (updateOrder s id p now).2 := by
  rcases updateOrder_cases s id p now with ⟨r, h, -⟩ | ⟨loc, b, o, h, hp, -, hb, ho, hu⟩
  · rw [h]
    exact hs
  · rw [hu]
    have hl := hs.loc_numeric id loc h
    have h1 := inv_removeOrder hs h hb
    have hq := (hs.typed _ _ b o hl hb (List.mem_iff_getElem?.mpr ⟨_, ho⟩)).2.2.2
    have h2 := inv_insertOrder h1 ⟨id, o.order_type, p, o.quantity, now⟩
      (removeOrder_lookup_self s id loc b) (hs.fresh id loc h) ((not_le_zero_iff hpn).mp hp) hq
    exact h2.transfer rfl rfl rfl (le_refl _)

theorem updateOrder_in_bounds {s : OrderBook} (hs : Inv s) (id : Nat) (p : Price) (now : Nat) :
    (updateOrder s id p now).1 ≠ .error .out_of_bounds := by
  by_cases hp : p ≤ 0
  · rw [updateOrder_invalid s id p now hp]
    exact fun he => Failure.noConfusion (Except.error.inj he)
  cases h : s.order_lookup id with
  | none =>
    rw [updateOrder_unknown s id p now hp h]
    exact fun he => Except.noConfusion he
  | some loc =>
    cases hsame : Price.eq loc.price p with
    | true =>
      rw [updateOrder_same s id loc p now hp h hsame]
      exact fun he => Except.noConfusion he
    | false =>
      obtain ⟨b, o, hb, ho, -⟩ := hs.located id loc h
      rw [updateOrder_moved s id loc b o p now hp h hsame hb ho]
      exact fun he => Except.noConfusion he

theorem inv_after {s : OrderBook} (hs : Inv s) (c : Call) (hc : c.numeric = true) :
    Inv (s.after c) := by
  cases c with
  | createOrder t p q now =>
    exact inv_createOrder hs t (by simpa [Call.numeric] using hc) q now
  | cancelOrder id => exact inv_cancelOrder hs id
  | updateOrder id p now =>
    exact inv_updateOrder hs id (by simpa [Call.numeric] using hc) now

theorem inv_of_numReachable {s : OrderBook} (h : NumReachable s) : Inv s := by
  induction h with
  | init => exact inv_empty
  | step c hc _ ih => exact inv_after ih c hc

theorem reachable_of_numReachable {s : OrderBook} (h : NumReachable s) : Reachable s := by
  induction h with
  | init => exact Reachable.init
  | step c _ _ ih => exact Reachable.step c ih

/-! ## Both maps stay ordered whatever prices are given -/

theorem sorted_after {s : OrderBook} (hb : MapSorted greater s.bid_side)
    (ha : MapSorted less s.ask_side) (c : Call) :
    MapSorted greater (s.after c).bid_side ∧ MapSorted less (s.after c).ask_side := by
  cases c with
  | createOrder t p q now =>
    show MapSorted greater (createOrder s t p q now).2.bid_side ∧
      MapSorted less (createOrder s t p q now).2.ask_side
    by_cases h : p ≤ 0 ∨ q = 0
    · rw [createOrder_invalid s t p q now h]
      exact ⟨hb, ha⟩
    · rw [createOrder_valid s t p q now h]
      exact insertOrder_sorted
        (show MapSorted greater
          ({ s with order_id_counter := s.order_id_counter + 1 } : OrderBook).bid_side from hb)
        (show MapSorted less
          ({ s with order_id_counter := s.order_id_counter + 1 } : OrderBook).ask_side from ha)
        ⟨s.order_id_counter, t, p, q, now⟩
  | cancelOrder id =>
    show MapSorted greater (cancelOrder s id).2.bid_side ∧
      MapSorted less (cancelOrder s id).2.ask_side
    rcases cancelOrder_cases s id with h | ⟨loc, b, -, -, -, h⟩ <;> rw [h]
    · exact ⟨hb, ha⟩
    · exact removeOrder_sorted hb ha id loc b
  | updateOrder id p now =>
    show MapSorted greater (updateOrder s id p now).2.bid_side ∧
      MapSorted less (updateOrder s id p now).2.ask_side
    rcases updateOrder_cases s id p now with ⟨r, h, -⟩ | ⟨loc, b, o, -, -, -, -, -, h⟩ <;>
      rw [h]
    · exact ⟨hb, ha⟩
    · have h1 := removeOrder_sorted hb ha id loc b
      exact insertOrder_sorted h1.1 h1.2 _

theorem sorted_of_reachable {s : OrderBook} (h : Reachable s) :
    MapSorted greater s.bid_side ∧ MapSorted less s.ask_side := by
  induction h with
  | init => constructor <;> simp [MapSorted, mapKeys, OrderBook.empty]
  | step c _ ih => exact sorted_after ih.1 ih.2 c

theorem reachable_run {s : OrderBook} (hs : Reachable s) (calls : List Call) :
    Reachable (s.run calls) := by
  induction calls generalizing s with
  | nil => exact hs
  | cons c rest ih => exact ih (Reachable.step c hs)

theorem numReachable_run {s : OrderBook} (hs : NumReachable s) (calls : List Call)
    (hc : calls.all Call.numeric = true) : NumReachable (s.run calls) := by
  induction calls generalizing s with
  | nil => exact hs
  | cons c rest ih =>
    rw [List.all_cons, Bool.and_eq_true] at hc
    exact ih (NumReachable.step c hc.1 hs) hc.2

/-! ## The identifier counter -/

theorem cancelOrder_counter (s : OrderBook) (id : Nat) :
    (cancelOrder s id).2.order_id_counter = s.order_id_counter := by
  rcases cancelOrder_cases s id with h | ⟨loc, b, -, -, -, h⟩ <;> rw [h]
  rfl

theorem updateOrder_counter (s : OrderBook) (id : Nat) (p : Price) (now : Nat) :
    (updateOrder s id p now).2.order_id_counter = s.order_id_counter := by
  rcases updateOrder_cases s id p now with ⟨r, h, -⟩ | ⟨loc, b, o, -, -, -, -, -, h⟩ <;> rw [h]
  exact insertOrder_counter _ _

theorem createOrder_counter (s : OrderBook) (t : OrderType) (p : Price) (q now : Nat) :
    ((createOrder s t p q now).1 = .ok s.order_id_counter ∧
        (createOrder s t p q now).2.order_id_counter = s.order_id_counter + 1) ∨
      ((createOrder s t p q now).1 = .error .invalid_argument ∧
        (createOrder s t p q now).2 = s) := by
  by_cases h : p ≤ 0 ∨ q = 0
  · right
    rw [createOrder_invalid s t p q now h]
    exact ⟨rfl, rfl⟩
  · left
    rw [createOrder_valid s t p q now h]
    exact ⟨rfl, insertOrder_counter _ _⟩

theorem createdIds_eq_range (s : OrderBook) (calls : List Call) :
    createdIds s calls = List.range' s.order_id_counter (createdIds s calls).length := by
  induction calls generalizing s with
  | nil => rfl
  | cons c rest ih =>
    cases c with
    | createOrder t p q now =>
      simp only [createdIds, OrderBook.after]
      rcases createOrder_counter s t p q now with ⟨h1, h2⟩ | ⟨h1, h2⟩
      · rw [h1]
        simp only [List.length_cons, List.range'_succ]
        have := ih (createOrder s t p q now).2
        rw [h2] at this
        rw [← this]
      · rw [h1]
        simp only
        have := ih (createOrder s t p q now).2
        rw [h2] at this ⊢
        exact this
    | cancelOrder id =>
      simp only [createdIds, OrderBook.after]
      have := ih (cancelOrder s id).2
      rw [cancelOrder_counter] at this
      exact this
    | updateOrder id p now =>
      simp only [createdIds, OrderBook.after]
      have := ih (updateOrder s id p now).2
      rw [updateOrder_counter] at this
      exact this

theorem counter_after_run (s : OrderBook) (calls : List Call) :
    (s.run calls).order_id_counter = s.order_id_counter + (createdIds s calls).length := by
  induction calls generalizing s with
  | nil => rfl
  | cons c rest ih =>
    have h := ih (s.after c)
    simp only [OrderBook.run, List.foldl_cons] at h ⊢
    rw [h]
    cases c with
    | createOrder t p q now =>
      simp only [createdIds, OrderBook.after]
      rcases createOrder_counter s t p q now with ⟨h1, h2⟩ | ⟨h1, h2⟩
      · rw [h1, h2]
        simp only [List.length_cons]
        omega
      · rw [h1, h2]
    | cancelOrder id =>
      simp only [createdIds, OrderBook.after, cancelOrder_counter]
    | updateOrder id p now =>
      simp only [createdIds, OrderBook.after, updateOrder_counter]

/-! ## The specification, claim by claim -/

/-- Without NaN prices the location invariant holds: in every state reached by calls
none of which is given a NaN price, every identifier `id` present in `order_lookup` has
a bucket of the recorded side at the recorded price, the recorded index lies within
that bucket, and the order stored at that index has the identifier `id`. -/
theorem location_invariant_numeric (s : OrderBook) (hs : NumReachable s) (id : Nat)
    (loc : OrderLocation) (h : s.order_lookup id = some loc) :
    ∃ b, bucketAt s loc.is_buy loc.price = some b ∧
      ∃ hi : loc.index < b.length, (b[loc.index]).order_id = id := by
  obtain ⟨b, o, hb, ho, hid⟩ := (inv_of_numReachable hs).located id loc h
  refine ⟨b, hb, getElem?_lt ho, ?_⟩
  rw [List.getElem?_eq_getElem (getElem?_lt ho)] at ho
  rw [Option.some.inj ho]
  exact hid

/-- C1, evaluated on the code: `createOrder(BUY, 100, 5)`, `createOrder(BUY, NaN, 7)`
and `createOrder(BUY, 101, 5)` are all accepted (they return 1, 2, 3), since
`NaN <= 0.0` is false.  Order 2 is pushed into the bucket of 100, the one entry the
map has then, and is recorded in the index at price NaN, index 1.  After the third
call the bid map is `101: [order 3], 100: [order 1, order 2]`, and `find(NaN)` yields
the first entry, the bucket of 101, which has one element: the recorded index 1 is out
of its bounds. -/
theorem location_lost_by_nan :
    Reachable (OrderBook.empty.run
        [.createOrder .BUY 100 5 0, .createOrder .BUY .nan 7 1, .createOrder .BUY 101 5 2]) ∧
      createdIds OrderBook.empty
        [.createOrder .BUY 100 5 0, .createOrder .BUY .nan 7 1, .createOrder .BUY 101 5 2]
        = [1, 2, 3] ∧
      (OrderBook.empty.run
        [.createOrder .BUY 100 5 0, .createOrder .BUY .nan 7 1, .createOrder .BUY 101 5 2]
        ).bid_side =
        [(101, [⟨3, .BUY, 101, 5, 2⟩]), (100, [⟨1, .BUY, 100, 5, 0⟩, ⟨2, .BUY, .nan, 7, 1⟩])] ∧
      (OrderBook.empty.run
        [.createOrder .BUY 100 5 0, .createOrder .BUY .nan 7 1, .createOrder .BUY 101 5 2]
        ).order_lookup 2 = some ⟨.nan, 1, true⟩ ∧
      mapFind greater (OrderBook.empty.run
        [.createOrder .BUY 100 5 0, .createOrder .BUY .nan 7 1, .createOrder .BUY 101 5 2]
        ).bid_side .nan = some [⟨3, .BUY, 101, 5, 2⟩] ∧
      ¬ ∃ b, mapFind greater (OrderBook.empty.run
        [.createOrder .BUY 100 5 0, .createOrder .BUY .nan 7 1, .createOrder .BUY 101 5 2]
        ).bid_side .nan = some b ∧ 1 < b.length := by
  refine ⟨reachable_run Reachable.init _, by decide, by decide, by decide, by decide, ?_⟩
  rintro ⟨b, hb, hlen⟩
  have h : mapFind greater (OrderBook.empty.run
      [.createOrder .BUY 100 5 0, .createOrder .BUY .nan 7 1, .createOrder .BUY 101 5 2]
      ).bid_side .nan = some [⟨3, .BUY, 101, 5, 2⟩] := by decide
  rw [h] at hb
  rw [← Option.some.inj hb] at hlen
  exact absurd hlen (by decide)

/-- C2, evaluated on the code: on the book holding the single order 1 (BUY, price 100,
quantity 10), `updateOrder(1, 101)` succeeds and the order still exists, but
`getOrderCount()` drops from 1 to 0: `updateOrder` cancels (which decrements
`total_orders`) and re-inserts without the increment that `createOrder` performs. -/
theorem updateOrder_loses_count :
    Reachable (OrderBook.empty.after (.createOrder .BUY 100 10 0)) ∧
      orderExists (OrderBook.empty.after (.createOrder .BUY 100 10 0)) 1 = true ∧
      getOrderCount (OrderBook.empty.after (.createOrder .BUY 100 10 0)) = 1 ∧
      (updateOrder (OrderBook.empty.after (.createOrder .BUY 100 10 0)) 1 101 1).1 = .ok true ∧
      getOrderCount
        (updateOrder (OrderBook.empty.after (.createOrder .BUY 100 10 0)) 1 101 1).2 = 0 :=
  ⟨Reachable.step _ Reachable.init, by decide, by decide, by decide, by decide⟩

/-- C3, evaluated on the code: after `createOrder(BUY, 100, 10)` and
`updateOrder(1, 101)` the book is reachable, order 1 exists and is the one order
stored in the buckets, yet `getOrderCount()` is 0. -/
theorem count_below_active_orders :
    Reachable (OrderBook.empty.run [.createOrder .BUY 100 10 0, .updateOrder 1 101 1]) ∧
      orderExists
        (OrderBook.empty.run [.createOrder .BUY 100 10 0, .updateOrder 1 101 1]) 1 = true ∧
      storedCount
        (OrderBook.empty.run [.createOrder .BUY 100 10 0, .updateOrder 1 101 1]) = 1 ∧
      getOrderCount
        (OrderBook.empty.run [.createOrder .BUY 100 10 0, .updateOrder 1 101 1]) = 0 :=
  ⟨reachable_run Reachable.init _, by decide, by decide, by decide⟩

/-- C4: for every finite sequence of calls made on the empty book, the identifiers
returned by the successful `createOrder` calls are, in call order, exactly
`1, 2, ..., n`: they start at 1, are strictly increasing and pairwise distinct, and
neither a failing `createOrder` nor a `cancelOrder` or `updateOrder` uses one up.
(Identifiers are natural numbers here: the 64-bit counter of the source is taken not
to wrap, see the modelling conventions.) -/
theorem created_ids_increasing (calls : List Call) :
    createdIds OrderBook.empty calls
        = List.range' 1 (createdIds OrderBook.empty calls).length ∧
      (createdIds OrderBook.empty calls).Pairwise (fun a b => a < b) ∧
      (createdIds OrderBook.empty calls).Nodup := by
  have h := createdIds_eq_range OrderBook.empty calls
  refine ⟨h, ?_, ?_⟩
  · rw [h]
    exact List.pairwise_lt_range' _ _
  · rw [h]
    exact List.nodup_range' _ _

/-- C5: `createOrder(side, price, quantity)` fails exactly when `price <= 0` or
`quantity = 0`; the failure is then `InvalidArgument`, and the book after the failing
call is the book before it (both price maps, the location index, the order count, the
identifier counter and the cached best prices). -/
theorem createOrder_fails_iff (s : OrderBook) (t : OrderType) (p : Price) (q now : Nat) :
    ((∃ e, (createOrder s t p q now).1 = .error e) ↔ (p ≤ 0 ∨ q = 0)) ∧
      ((p ≤ 0 ∨ q = 0) → createOrder s t p q now = (.error .invalid_argument, s)) := by
  refine ⟨⟨?_, ?_⟩, createOrder_invalid s t p q now⟩
  · rintro ⟨e, he⟩
    by_contra hv
    rw [createOrder_valid s t p q now hv] at he
    exact Except.noConfusion he
  · intro h
    exact ⟨.invalid_argument, by rw [createOrder_invalid s t p q now h]⟩

theorem createOrder_fails_iff_witness :
    ((0 : Price) ≤ 0 ∨ 5 = 0) ∧
      createOrder (OrderBook.empty.after (.createOrder .SELL 101 5 0)) .BUY 0 5 1 =
        (.error .invalid_argument, OrderBook.empty.after (.createOrder .SELL 101 5 0)) :=
  ⟨by decide,
    (createOrder_fails_iff (OrderBook.empty.after (.createOrder .SELL 101 5 0)) .BUY 0 5 1).2
      (by decide)⟩

/-- Without NaN prices `cancelOrder(id)` returns `true` exactly when `orderExists(id)`
held before the call; and in every book at all a call that returns `false` leaves the
book as it was. -/
theorem cancelOrder_true_iff_numeric (s : OrderBook) (hs : NumReachable s) (id : Nat) :
    ((cancelOrder s id).1 = true ↔ orderExists s id = true) ∧
      ((cancelOrder s id).1 = false → (cancelOrder s id).2 = s) := by
  constructor
  · cases h : s.order_lookup id with
    | none => simp [cancelOrder_unknown s id h, orderExists, h]
    | some loc =>
      obtain ⟨b, o, -, -, -, hc⟩ := cancelOrder_known (inv_of_numReachable hs) h
      simp [hc, orderExists, h]
  · intro hf
    rcases cancelOrder_cases s id with h | ⟨loc, b, -, -, -, h⟩
    · rw [h]
    · rw [h] at hf
      exact Bool.noConfusion hf

/-- C6, evaluated on the code: after `createOrder(BUY, 100, 5)`,
`createOrder(BUY, NaN, 7)` and `createOrder(BUY, 101, 5)` the call `orderExists(2)`
returns `true`, yet `cancelOrder(2)` returns `false`: it takes the branch for an index
that is out of range, because `find(NaN)` yields the bucket of 101, of size 1, while
the index recorded for order 2 is 1. -/
theorem cancelOrder_refuses_existing :
    Reachable (OrderBook.empty.run
        [.createOrder .BUY 100 5 0, .createOrder .BUY .nan 7 1, .createOrder .BUY 101 5 2]) ∧
      orderExists (OrderBook.empty.run
        [.createOrder .BUY 100 5 0, .createOrder .BUY .nan 7 1, .createOrder .BUY 101 5 2])
        2 = true ∧
      (cancelOrder (OrderBook.empty.run
        [.createOrder .BUY 100 5 0, .createOrder .BUY .nan 7 1, .createOrder .BUY 101 5 2])
        2).1 = false :=
  ⟨reachable_run Reachable.init _, by decide, by decide⟩

/-- Without NaN prices, when `cancelOrder(id)` returns `true`, afterwards
`orderExists(id)` is `false` and `orderExists(j)` is what it was for every other
identifier `j`. -/
theorem cancelOrder_orderExists_numeric (s : OrderBook) (hs : NumReachable s) (id : Nat)
    (hc : (cancelOrder s id).1 = true) :
    orderExists (cancelOrder s id).2 id = false ∧
      ∀ j, j ≠ id → orderExists (cancelOrder s id).2 j = orderExists s j := by
  have hinv := inv_of_numReachable hs
  cases h : s.order_lookup id with
  | none =>
    rw [cancelOrder_unknown s id h] at hc
    exact Bool.noConfusion hc
  | some loc =>
    obtain ⟨b, o, hb, ho, -, heq⟩ := cancelOrder_known hinv h
    obtain ⟨last, hlast⟩ := bucket_last ho
    have hL := removeOrder_lookup hinv h hb hlast
    have hlast1 := hinv.indexed _ _ b _ last (hinv.loc_numeric id loc h) hb hlast
    rw [heq]
    constructor
    · simp only [orderExists, hL, Function.update_same, Option.isSome_none]
    · intro j hj
      simp only [orderExists, hL, Function.update_noteq hj]
      by_cases hjl : j = last.order_id
      · rw [hjl, Function.update_same, hlast1]
        rfl
      · rw [Function.update_noteq hjl]

/-- C7, evaluated on the code: after `createOrder(BUY, 100, 5)`,
`createOrder(BUY, NaN, 7)`, `createOrder(BUY, 101, 5)`, `createOrder(BUY, 101, 5)` and
`cancelOrder(2)` (which returns `true` and removes order 4 from the bucket of 101, the
bucket `find(NaN)` yields), `orderExists(2)` is `false` while order 2 still sits at
index 1 of the bucket of 100.  `cancelOrder(1)` then returns `true`, moves order 2 to
index 0 and writes `order_lookup[2].index = 0`, which creates the entry of identifier
2 anew: `orderExists(2)` is `true` afterwards. -/
theorem cancelOrder_revives_other :
    Reachable (OrderBook.empty.run
        [.createOrder .BUY 100 5 0, .createOrder .BUY .nan 7 1, .createOrder .BUY 101 5 2,
          .createOrder .BUY 101 5 3, .cancelOrder 2]) ∧
      (cancelOrder (OrderBook.empty.run
        [.createOrder .BUY 100 5 0, .createOrder .BUY .nan 7 1, .createOrder .BUY 101 5 2,
          .createOrder .BUY 101 5 3]) 2).1 = true ∧
      (OrderBook.empty.run
        [.createOrder .BUY 100 5 0, .createOrder .BUY .nan 7 1, .createOrder .BUY 101 5 2,
          .createOrder .BUY 101 5 3, .cancelOrder 2]).bid_side =
        [(101, [⟨3, .BUY, 101, 5, 2⟩]), (100, [⟨1, .BUY, 100, 5, 0⟩, ⟨2, .BUY, .nan, 7, 1⟩])] ∧
      orderExists (OrderBook.empty.run
        [.createOrder .BUY 100 5 0, .createOrder .BUY .nan 7 1, .createOrder .BUY 101 5 2,
          .createOrder .BUY 101 5 3, .cancelOrder 2]) 2 = false ∧
      (cancelOrder (OrderBook.empty.run
        [.createOrder .BUY 100 5 0, .createOrder .BUY .nan 7 1, .createOrder .BUY 101 5 2,
          .createOrder .BUY 101 5 3, .cancelOrder 2]) 1).1 = true ∧
      orderExists (cancelOrder (OrderBook.empty.run
        [.createOrder .BUY 100 5 0, .createOrder .BUY .nan 7 1, .createOrder .BUY 101 5 2,
          .createOrder .BUY 101 5 3, .cancelOrder 2]) 1).2 2 = true :=
  ⟨reachable_run Reachable.init _, by decide, by decide, by decide, by decide, by decide⟩

/-- C8, evaluated on the code: after `createOrder(BUY, 100, 10)` and
`updateOrder(1, 101)` the reachable book has `getOrderCount() = 0` although order 1
exists; `cancelOrder(1)` then returns `true` and the 64-bit count wraps from 0 to
`2 ^ 64 - 1` instead of going down by one. -/
theorem cancelOrder_count_wraps :
    Reachable (OrderBook.empty.run [.createOrder .BUY 100 10 0, .updateOrder 1 101 1]) ∧
      getOrderCount
        (OrderBook.empty.run [.createOrder .BUY 100 10 0, .updateOrder 1 101 1]) = 0 ∧
      (cancelOrder
        (OrderBook.empty.run [.createOrder .BUY 100 10 0, .updateOrder 1 101 1]) 1).1 = true ∧
      getOrderCount (cancelOrder
        (OrderBook.empty.run [.createOrder .BUY 100 10 0, .updateOrder 1 101 1]) 1).2
        = 2 ^ 64 - 1 :=
  ⟨reachable_run Reachable.init _, by decide, by decide, by decide⟩

/-- Without NaN prices, for an existing identifier `id` whose order rests at price `p`
(the price recorded for `id` in the location index, which is the price field of the
stored order), `updateOrder(id, p)` returns `true` and leaves the whole book unchanged:
count, buckets and their order, location index. -/
theorem updateOrder_same_price_numeric (s : OrderBook) (hs : NumReachable s) (id : Nat)
    (loc : OrderLocation) (now : Nat) (h : s.order_lookup id = some loc) :
    updateOrder s id loc.price now = (.ok true, s) ∧
      ∃ b o, bucketAt s loc.is_buy loc.price = some b ∧ b[loc.index]? = some o ∧
        o.order_id = id ∧ o.price = loc.price := by
  have hinv := inv_of_numReachable hs
  have hl := hinv.loc_numeric id loc h
  obtain ⟨b, o, hb, ho, hid⟩ := hinv.located id loc h
  have ht := hinv.typed _ _ b o hl hb (List.mem_iff_getElem?.mpr ⟨_, ho⟩)
  exact ⟨updateOrder_same s id loc loc.price now ((not_le_zero_iff hl).mpr ht.2.2.1) h
    ((Price.eq_iff hl hl).mpr rfl), b, o, hb, ho, hid, ht.2.1⟩

/-- C9, evaluated on the code: `createOrder(BUY, NaN, 10)` at time 0 is accepted and
order 1 rests at price NaN.  `updateOrder(1, NaN)` at time 5 passes the price check
(`NaN <= 0.0` is false) and the test `location.price == new_price` is false, so the
order is cancelled and inserted again: the call returns `true`, but `getOrderCount()`
goes from 1 to 0 and the stored order has the new timestamp 5. -/
theorem updateOrder_nan_not_noop :
    Reachable (OrderBook.empty.after (.createOrder .BUY .nan 10 0)) ∧
      (OrderBook.empty.after (.createOrder .BUY .nan 10 0)).order_lookup 1
        = some ⟨.nan, 0, true⟩ ∧
      (OrderBook.empty.after (.createOrder .BUY .nan 10 0)).bid_side
        = [(.nan, [⟨1, .BUY, .nan, 10, 0⟩])] ∧
      getOrderCount (OrderBook.empty.after (.createOrder .BUY .nan 10 0)) = 1 ∧
      (updateOrder (OrderBook.empty.after (.createOrder .BUY .nan 10 0)) 1 .nan 5).1
        = .ok true ∧
      (updateOrder (OrderBook.empty.after (.createOrder .BUY .nan 10 0)) 1 .nan 5).2.bid_side
        = [(.nan, [⟨1, .BUY, .nan, 10, 5⟩])] ∧
      getOrderCount
        (updateOrder (OrderBook.empty.after (.createOrder .BUY .nan 10 0)) 1 .nan 5).2 = 0 ∧
      (updateOrder (OrderBook.empty.after (.createOrder .BUY .nan 10 0)) 1 .nan 5).2
        ≠ OrderBook.empty.after (.createOrder .BUY .nan 10 0) := by
  refine ⟨Reachable.step _ Reachable.init, by decide, by decide, by decide, by decide,
    by decide, by decide, ?_⟩
  intro h
  have h1 := congrArg getOrderCount h
  revert h1
  decide

/-- C10: `updateOrder(id, new_price)` fails with `InvalidArgument` exactly when
`new_price <= 0`, whether or not `id` exists; for `new_price > 0` and an identifier
that does not exist it returns `false`; in both cases the book is unchanged. -/
theorem updateOrder_invalid_iff (s : OrderBook) (id : Nat) (p : Price) (now : Nat) :
    ((updateOrder s id p now).1 = .error .invalid_argument ↔ p ≤ 0) ∧
      ((p ≤ 0 ∨ orderExists s id = false) →
        updateOrder s id p now =
          (if p ≤ 0 then .error .invalid_argument else .ok false, s)) := by
  constructor
  · constructor
    · intro he
      by_contra hp
      rcases updateOrder_cases s id p now with ⟨r, h, hr⟩ | ⟨loc, b, o, -, -, -, -, -, h⟩
      · rw [h] at he
        exact hr hp he
      · rw [h] at he
        exact Except.noConfusion he
    · intro hp
      rw [updateOrder_invalid s id p now hp]
  · intro h
    by_cases hp : p ≤ 0
    · rw [if_pos hp, updateOrder_invalid s id p now hp]
    · rw [if_neg hp]
      rcases h with h | h
      · exact absurd h hp
      · have hn : s.order_lookup id = none := by
          simpa [orderExists] using h
        exact updateOrder_unknown s id p now hp hn

theorem updateOrder_invalid_iff_witness :
    ((5 : Price) ≤ 0 ∨
        orderExists (OrderBook.empty.after (.createOrder .BUY 100 10 0)) 9 = false) ∧
      updateOrder (OrderBook.empty.after (.createOrder .BUY 100 10 0)) 9 5 1 =
        (if (5 : Price) ≤ 0 then .error .invalid_argument else .ok false,
          OrderBook.empty.after (.createOrder .BUY 100 10 0)) :=
  ⟨by decide,
    (updateOrder_invalid_iff (OrderBook.empty.after (.createOrder .BUY 100 10 0)) 9 5 1).2
      (by decide)⟩

/-! ## Further consequences of the invariant -/

theorem bucket_index_unique {s : OrderBook} (hs : Inv s) {ib : Bool} {p : Price}
    (hp : p ≠ Price.nan) {b : List Order} (hb : bucketAt s ib p = some b) {j1 j2 : Nat}
    {o1 o2 : Order} (h1 : b[j1]? = some o1) (h2 : b[j2]? = some o2)
    (he : o1.order_id = o2.order_id) : j1 = j2 := by
  have e1 := hs.indexed _ _ b j1 o1 hp hb h1
  have e2 := hs.indexed _ _ b j2 o2 hp hb h2
  rw [he, e2] at e1
  simp only [Option.some.injEq, OrderLocation.mk.injEq] at e1
  exact e1.2.1.symm

theorem swapPop_mem_other {s : OrderBook} (hs : Inv s) {ib : Bool} {p : Price}
    (hp : p ≠ Price.nan) {b : List Order} (hb : bucketAt s ib p = some b) {i : Nat}
    {o o1 : Order} (ho : b[i]? = some o) (hm : o1 ∈ swapPop b i) :
    o1.order_id ≠ o.order_id := by
  have hi := getElem?_lt ho
  obtain ⟨j, hj⟩ := List.mem_iff_getElem?.mp hm
  obtain ⟨hjlt, hget⟩ := swapPop_get hi hj
  intro he
  split_ifs at hget with hji
  · have := bucket_index_unique hs hp hb hget ho he
    omega
  · exact hji (bucket_index_unique hs hp hb hget ho he)

/-- Without NaN prices, for an existing identifier `id` whose order `o` rests on side
`loc.is_buy` at price `loc.price`, and every `new_price > 0` different from that price,
`updateOrder(id, new_price)` returns `true` (the bucket read is in bounds and the inner
cancel succeeds); afterwards `orderExists(id)` holds, the last element of the bucket at
`new_price` on the same side is the order with identifier `id`, the same order type and
the same quantity, the index records it there, and no order with identifier `id` is
left in the bucket at the old price. -/
theorem updateOrder_moves_order_numeric (s : OrderBook) (hs : NumReachable s) (id : Nat)
    (loc : OrderLocation) (new_price : Price) (now : Nat)
    (h : s.order_lookup id = some loc) (hp : 0 < new_price) (hne : new_price ≠ loc.price) :
    ∃ b o, bucketAt s loc.is_buy loc.price = some b ∧ b[loc.index]? = some o ∧
      o.order_id = id ∧ isBuy o.order_type = loc.is_buy ∧
      (updateOrder s id new_price now).1 = .ok true ∧
      orderExists (updateOrder s id new_price now).2 id = true ∧
      (∃ b1, bucketAt (updateOrder s id new_price now).2 loc.is_buy new_price = some b1 ∧
          b1.getLast? = some ⟨id, o.order_type, new_price, o.quantity, now⟩ ∧
          (updateOrder s id new_price now).2.order_lookup id
            = some ⟨new_price, b1.length - 1, loc.is_buy⟩) ∧
      ∀ b0 o0, bucketAt (updateOrder s id new_price now).2 loc.is_buy loc.price = some b0 →
        o0 ∈ b0 → o0.order_id ≠ id := by
  have hinv := inv_of_numReachable hs
  have hl := hinv.loc_numeric id loc h
  have hpn := pos_ne_nan hp
  obtain ⟨b, o, hb, ho, hid⟩ := hinv.located id loc h
  have ht := hinv.typed _ _ b o hl hb (List.mem_iff_getElem?.mpr ⟨_, ho⟩)
  have hinv1 := inv_removeOrder hinv h hb
  have hlook := insertOrder_lookup (removeOrder s id loc b)
    ⟨id, o.order_type, new_price, o.quantity, now⟩
  have hfind := insertOrder_find hinv1.numeric
    ⟨id, o.order_type, new_price, o.quantity, now⟩ hpn loc.is_buy hl
  have hrem := removeOrder_find hinv.bid_sorted hinv.ask_sorted hinv.numeric id hl hb
    loc.is_buy hl
  have hpe : Price.eq loc.price new_price = false := by
    cases he : Price.eq loc.price new_price with
    | false => rfl
    | true => exact absurd ((Price.eq_iff hl hpn).mp he).symm hne
  refine ⟨b, o, hb, ho, hid, ht.1, ?_⟩
  rw [updateOrder_moved s id loc b o new_price now (not_le_zero_iff hpn |>.mpr hp) h hpe hb ho]
  refine ⟨rfl, ?_, ?_, ?_⟩
  · show ((insertOrder _ _).order_lookup id).isSome = true
    rw [hlook, Function.update_same]
    rfl
  · refine ⟨(bucketAt (removeOrder s id loc b) loc.is_buy new_price).getD []
      ++ [⟨id, o.order_type, new_price, o.quantity, now⟩], ?_, ?_, ?_⟩
    · show bucketAt (insertOrder _ _) loc.is_buy new_price = _
      rw [insertOrder_find hinv1.numeric ⟨id, o.order_type, new_price, o.quantity, now⟩ hpn
        loc.is_buy hpn, if_pos ⟨ht.1.symm, rfl⟩]
    · simp
    · show (insertOrder _ _).order_lookup id = _
      rw [hlook, Function.update_same, ht.1]
      simp
  · intro b0 o0 hb0 hm
    have hb1 : bucketAt (insertOrder (removeOrder s id loc b)
        ⟨id, o.order_type, new_price, o.quantity, now⟩) loc.is_buy loc.price = some b0 := hb0
    rw [hfind, if_neg (fun hc => hne hc.2.symm), hrem, if_pos ⟨rfl, rfl⟩] at hb1
    split_ifs at hb1
    have hb2 := Option.some.inj hb1
    subst hb2
    rw [← hid]
    exact swapPop_mem_other hinv hl hb ho hm

/-- C11, evaluated on the code: `createOrder(BUY, NaN, 10)` and
`createOrder(BUY, 100, 5)` are accepted; the bid map then has the single key NaN, whose
bucket holds both orders, and order 2 is recorded at price 100, index 1.
`updateOrder(2, 101)` returns `true`, but the map still has the single key NaN: no
bucket of 101 is made, and the bucket that `find(100)` yields, the place recorded for
order 2 before the call, still holds an order with identifier 2. -/
theorem updateOrder_stays_in_nan_bucket :
    Reachable (OrderBook.empty.run
        [.createOrder .BUY .nan 10 0, .createOrder .BUY 100 5 1]) ∧
      (OrderBook.empty.run
        [.createOrder .BUY .nan 10 0, .createOrder .BUY 100 5 1]).bid_side
        = [(.nan, [⟨1, .BUY, .nan, 10, 0⟩, ⟨2, .BUY, 100, 5, 1⟩])] ∧
      (OrderBook.empty.run
        [.createOrder .BUY .nan 10 0, .createOrder .BUY 100 5 1]).order_lookup 2
        = some ⟨100, 1, true⟩ ∧
      (updateOrder (OrderBook.empty.run
        [.createOrder .BUY .nan 10 0, .createOrder .BUY 100 5 1]) 2 101 2).1 = .ok true ∧
      (updateOrder (OrderBook.empty.run
        [.createOrder .BUY .nan 10 0, .createOrder .BUY 100 5 1]) 2 101 2).2.bid_side
        = [(.nan, [⟨1, .BUY, .nan, 10, 0⟩, ⟨2, .BUY, 101, 5, 2⟩])] ∧
      mapFind greater (updateOrder (OrderBook.empty.run
        [.createOrder .BUY .nan 10 0, .createOrder .BUY 100 5 1]) 2 101 2).2.bid_side 100
        = some [⟨1, .BUY, .nan, 10, 0⟩, ⟨2, .BUY, 101, 5, 2⟩] :=
  ⟨reachable_run Reachable.init _, by decide, by decide, by decide, by decide, by decide⟩

/-- Without NaN prices, a valid `createOrder` returns the next identifier, after which
that identifier exists, the count is one more modulo `2 ^ 64`, the new order is the
last element of the bucket of its price on its side and is recorded at the index that
was the size of that bucket, and no other bucket and no other location has changed. -/
theorem createOrder_effect (s : OrderBook) (hs : NumReachable s) (t : OrderType) (p : Price)
    (q now : Nat) (hp : 0 < p) (hq : 0 < q) :
    (createOrder s t p q now).1 = .ok s.order_id_counter ∧
      orderExists (createOrder s t p q now).2 s.order_id_counter = true ∧
      getOrderCount (createOrder s t p q now).2 = (getOrderCount s + 1) % U64 ∧
      bucketAt (createOrder s t p q now).2 (isBuy t) p =
        some ((bucketAt s (isBuy t) p).getD [] ++ [⟨s.order_id_counter, t, p, q, now⟩]) ∧
      (createOrder s t p q now).2.order_lookup s.order_id_counter =
        some ⟨p, ((bucketAt s (isBuy t) p).getD []).length, isBuy t⟩ ∧
      (∀ ib p1, p1 ≠ Price.nan → ¬ (ib = isBuy t ∧ p1 = p) →
        bucketAt (createOrder s t p q now).2 ib p1 = bucketAt s ib p1) ∧
      ∀ j, j ≠ s.order_id_counter →
        (createOrder s t p q now).2.order_lookup j = s.order_lookup j := by
  have hinv := inv_of_numReachable hs
  have hpn := pos_ne_nan hp
  have hv : ¬ (p ≤ 0 ∨ q = 0) := by
    rw [not_or]
    exact ⟨(not_le_zero_iff hpn).mpr hp, Nat.pos_iff_ne_zero.mp hq⟩
  have hinv1 : Inv { s with order_id_counter := s.order_id_counter + 1 } :=
    hinv.transfer rfl rfl rfl (Nat.le_succ _)
  have hself := insertOrder_find_self { s with order_id_counter := s.order_id_counter + 1 }
    ⟨s.order_id_counter, t, p, q, now⟩
  have hlook := insertOrder_lookup { s with order_id_counter := s.order_id_counter + 1 }
    ⟨s.order_id_counter, t, p, q, now⟩
  rw [createOrder_valid s t p q now hv]
  refine ⟨rfl, ?_, ?_, ?_, ?_, ?_, ?_⟩
  · show ((insertOrder _ _).order_lookup s.order_id_counter).isSome = true
    rw [hlook, Function.update_same]
    rfl
  · rfl
  · exact hself
  · show (insertOrder _ _).order_lookup s.order_id_counter = _
    rw [hlook, Function.update_same]
    rfl
  · intro ib p1 hp1 hne
    show bucketAt (insertOrder _ _) ib p1 = _
    rw [insertOrder_find hinv1.numeric ⟨s.order_id_counter, t, p, q, now⟩ hpn ib hp1,
      if_neg hne]
    rfl
  · intro j hj
    show (insertOrder _ _).order_lookup j = _
    rw [hlook, Function.update_noteq hj]

/-- C12, evaluated on the code: after `createOrder(BUY, 100, 10)`, `updateOrder(1, 101)`
and `cancelOrder(1)` the reachable book holds no order and `getOrderCount()` is
`2 ^ 64 - 1`; the valid call `createOrder(BUY, 100, 10)` then returns identifier 2 and
`getOrderCount()` becomes 0, not one more than before.  (What else the claim says of a
valid `createOrder` is `createOrder_effect`, with the count taken modulo `2 ^ 64`.) -/
theorem createOrder_count_wraps :
    Reachable (OrderBook.empty.run
        [.createOrder .BUY 100 10 0, .updateOrder 1 101 1, .cancelOrder 1]) ∧
      getOrderCount (OrderBook.empty.run
        [.createOrder .BUY 100 10 0, .updateOrder 1 101 1, .cancelOrder 1]) = 2 ^ 64 - 1 ∧
      (createOrder (OrderBook.empty.run
        [.createOrder .BUY 100 10 0, .updateOrder 1 101 1, .cancelOrder 1])
        .BUY 100 10 3).1 = .ok 2 ∧
      getOrderCount (createOrder (OrderBook.empty.run
        [.createOrder .BUY 100 10 0, .updateOrder 1 101 1, .cancelOrder 1])
        .BUY 100 10 3).2 = 0 :=
  ⟨reachable_run Reachable.init _, by decide, by decide, by decide⟩

/-! ## The queries -/

theorem snapshotLoop_eq (depth : Nat) (m : PriceMap) (count : Nat) (levels : List PriceLevel) :
    snapshotLoop depth m count levels = levels ++ (m.take (depth - count)).map levelOf := by
  induction m generalizing count levels with
  | nil => simp [snapshotLoop]
  | cons e rest ih =>
    obtain ⟨price, orders⟩ := e
    simp only [snapshotLoop]
    split_ifs with hc
    · have h0 : depth - count = 0 := by omega
      simp [h0]
    · have h1 : depth - count = (depth - (count + 1)) + 1 := by omega
      rw [ih, h1, List.take_succ_cons, List.map_cons, List.append_assoc]
      rfl

theorem getDepthSnapshot_eq (s : OrderBook) (depth : Nat) (bids asks : List PriceLevel) :
    getDepthSnapshot s depth bids asks =
      ((s.bid_side.take depth).map levelOf, (s.ask_side.take depth).map levelOf) := by
  simp [getDepthSnapshot, snapshotLoop_eq, clear]

theorem U64_pos : 0 < U64 := by decide

theorem sumQuantity_foldl (orders : List Order) (acc : Nat) (hacc : acc < U64) :
    orders.foldl (fun total_qty order => (total_qty + order.quantity) % U64) acc =
      (acc + (orders.map Order.quantity).sum) % U64 := by
  induction orders generalizing acc with
  | nil => simp [Nat.mod_eq_of_lt hacc]
  | cons o rest ih =>
    simp only [List.foldl_cons, List.map_cons, List.sum_cons]
    rw [ih _ (Nat.mod_lt _ U64_pos), Nat.mod_add_mod, Nat.add_assoc]

theorem sumQuantity_eq (orders : List Order) :
    sumQuantity orders = (orders.map Order.quantity).sum % U64 := by
  unfold sumQuantity
  rw [sumQuantity_foldl orders 0 U64_pos, Nat.zero_add]

/-! ## The active orders and the buckets -/

theorem isBuy_inj {t1 t2 : OrderType} (h : isBuy t1 = isBuy t2) : t1 = t2 := by
  cases t1 <;> cases t2 <;> simp_all [isBuy]

theorem bucketAt_of_mem {s : OrderBook} (hs : Inv s) {ib : Bool} {p : Price} {b : List Order}
    (hm : (p, b) ∈ sideOf s ib) : p ≠ Price.nan ∧ bucketAt s ib p = some b :=
  ⟨hs.numeric ib p (List.mem_map.mpr ⟨(p, b), hm, rfl⟩),
    mapFind_of_mem (strictTotal_compOf ib) (side_sorted hs.bid_sorted hs.ask_sorted ib) hm⟩

theorem mem_of_bucketAt {s : OrderBook} (hs : Inv s) {ib : Bool} {p : Price}
    (hp : p ≠ Price.nan) {b : List Order} (hb : bucketAt s ib p = some b) :
    (p, b) ∈ sideOf s ib :=
  mem_of_mapFind_num (strictTotal_compOf ib) (hs.numeric ib) hp hb

theorem bucket_nodup {s : OrderBook} (hs : Inv s) {ib : Bool} {p : Price}
    (hp : p ≠ Price.nan) {b : List Order} (hb : bucketAt s ib p = some b) : b.Nodup := by
  rw [List.nodup_iff_getElem?_ne_getElem?]
  intro i j hij hj heq
  have hjs : b[j]? = some b[j] := List.getElem?_eq_getElem hj
  rw [hjs] at heq
  have := bucket_index_unique hs hp hb heq hjs rfl
  omega

theorem orderOf_eq_some {s : OrderBook} (hs : Inv s) {id : Nat} {o : Order} :
    orderOf s id = some o ↔
      ∃ loc b, s.order_lookup id = some loc ∧
        bucketAt s loc.is_buy loc.price = some b ∧ b[loc.index]? = some o := by
  unfold orderOf
  constructor
  · intro h
    cases hl : s.order_lookup id with
    | none => simp [hl] at h
    | some loc =>
      obtain ⟨b, o1, hb, ho, -⟩ := hs.located id loc hl
      simp only [hl, Option.some_bind, hb] at h
      exact ⟨loc, b, rfl, hb, h⟩
  · rintro ⟨loc, b, hl, hb, ho⟩
    simp only [hl, Option.some_bind, hb, ho]

theorem orderOf_id {s : OrderBook} (hs : Inv s) {id : Nat} {o : Order}
    (h : orderOf s id = some o) : o.order_id = id := by
  obtain ⟨loc, b, hl, hb, ho⟩ := (orderOf_eq_some hs).mp h
  obtain ⟨b1, o1, hb1, ho1, hid⟩ := hs.located id loc hl
  rw [hb] at hb1
  cases hb1
  rw [ho] at ho1
  cases ho1
  exact hid

theorem mem_activeOrdersAt {s : OrderBook} (hs : Inv s) (t : OrderType) {p : Price}
    (hp : p ≠ Price.nan) (o : Order) :
    o ∈ activeOrdersAt s t p ↔ ∃ b, bucketAt s (isBuy t) p = some b ∧ o ∈ b := by
  simp only [activeOrdersAt, activeSide, activeOrders, List.mem_filter, List.mem_filterMap,
    List.mem_range, decide_eq_true_eq]
  constructor
  · rintro ⟨⟨⟨id, -, hid⟩, ht⟩, hpo⟩
    obtain ⟨loc, b, hl, hb, ho⟩ := (orderOf_eq_some hs).mp hid
    have hty := hs.typed _ _ b o (hs.loc_numeric id loc hl) hb
      (List.mem_iff_getElem?.mpr ⟨_, ho⟩)
    rw [ht] at hty
    rw [hty.1, ← hpo, hty.2.1]
    exact ⟨b, hb, List.mem_iff_getElem?.mpr ⟨_, ho⟩⟩
  · rintro ⟨b, hb, hm⟩
    obtain ⟨i, hi⟩ := List.mem_iff_getElem?.mp hm
    have hl := hs.indexed _ _ b i o hp hb hi
    have hty := hs.typed _ _ b o hp hb hm
    refine ⟨⟨⟨o.order_id, hs.fresh _ _ hl, ?_⟩, isBuy_inj hty.1⟩, hty.2.1⟩
    exact (orderOf_eq_some hs).mpr ⟨_, b, hl, hb, hi⟩

theorem activeOrders_nodup {s : OrderBook} (hs : Inv s) : (activeOrders s).Nodup := by
  unfold activeOrders
  refine List.Nodup.filterMap ?_ (List.nodup_range _)
  intro a a1 b h1 h2
  rw [← orderOf_id hs (Option.mem_def.mp h1), ← orderOf_id hs (Option.mem_def.mp h2)]

theorem activeOrders_complete {s : OrderBook} (hs : Inv s) (id : Nat) :
    orderExists s id = true ↔ ∃ o ∈ activeOrders s, o.order_id = id := by
  simp only [orderExists, activeOrders, List.mem_filterMap, List.mem_range]
  constructor
  · intro h
    obtain ⟨loc, hl⟩ := Option.isSome_iff_exists.mp h
    obtain ⟨b, o, hb, ho, hid⟩ := hs.located id loc hl
    exact ⟨o, ⟨id, hs.fresh id loc hl, (orderOf_eq_some hs).mpr ⟨loc, b, hl, hb, ho⟩⟩, hid⟩
  · rintro ⟨o, ⟨id1, -, h1⟩, hid⟩
    have h2 := orderOf_id hs h1
    rw [hid] at h2
    subst h2
    obtain ⟨loc, b, hl, -, -⟩ := (orderOf_eq_some hs).mp h1
    rw [hl]
    rfl

theorem activeOrdersAt_perm {s : OrderBook} (hs : Inv s) (t : OrderType) {p : Price}
    (hp : p ≠ Price.nan) :
    (activeOrdersAt s t p).Perm ((bucketAt s (isBuy t) p).getD []) := by
  have hnd : (activeOrdersAt s t p).Nodup :=
    List.Nodup.filter _ (List.Nodup.filter _ (activeOrders_nodup hs))
  cases hb : bucketAt s (isBuy t) p with
  | none =>
    have hnil : activeOrdersAt s t p = [] := by
      rw [List.eq_nil_iff_forall_not_mem]
      intro o ho
      obtain ⟨b, hb1, -⟩ := (mem_activeOrdersAt hs t hp o).mp ho
      rw [hb] at hb1
      exact Option.noConfusion hb1
    rw [hnil]
    exact List.Perm.refl _
  | some b =>
    rw [Option.getD_some, List.perm_ext_iff_of_nodup hnd (bucket_nodup hs hp hb)]
    intro o
    rw [mem_activeOrdersAt hs t hp o, hb]
    constructor
    · rintro ⟨b1, hb1, hm⟩
      cases hb1
      exact hm
    · intro hm
      exact ⟨b, rfl, hm⟩

theorem activeOrdersAt_sum {s : OrderBook} (hs : Inv s) (t : OrderType) {p : Price}
    (hp : p ≠ Price.nan) {b : List Order} (hb : bucketAt s (isBuy t) p = some b) :
    sumQuantity b = ((activeOrdersAt s t p).map Order.quantity).sum % U64 ∧
      activeOrdersAt s t p ≠ [] := by
  have hperm := activeOrdersAt_perm hs t hp
  rw [hb, Option.getD_some] at hperm
  constructor
  · rw [sumQuantity_eq, (hperm.map Order.quantity).sum_eq]
  · intro hnil
    rw [hnil] at hperm
    exact hs.nonempty _ _ b hp hb (List.Perm.nil_eq hperm).symm

theorem snapshot_level_entry {m : PriceMap} {k : Nat} {lvl : PriceLevel}
    (h : lvl ∈ (m.take k).map levelOf) :
    ∃ b, (lvl.price, b) ∈ m ∧ lvl.total_quantity = sumQuantity b := by
  obtain ⟨e, he, hl⟩ := List.mem_map.mp h
  obtain ⟨p, b⟩ := e
  subst hl
  exact ⟨b, List.mem_of_mem_take he, rfl⟩

/-- C13 as the code has it when no NaN price is given: in every state reached by calls
none of which is given a NaN price, and for every depth `k`, each level returned by
`getDepthSnapshot(k)` on either side has a `total_quantity` equal to the sum of the
quantities of all currently active orders of that side resting at exactly that level's
price, taken modulo `2 ^ 64` (so equal to that sum whenever the sum is below `2 ^ 64`),
and at least one active order of that side rests at the level's price. -/
theorem snapshot_level_quantity (s : OrderBook) (hs : NumReachable s) (k : Nat)
    (bids asks : List PriceLevel) :
    (∀ lvl ∈ (getDepthSnapshot s k bids asks).1,
        lvl.total_quantity
          = ((activeOrdersAt s .BUY lvl.price).map Order.quantity).sum % U64 ∧
        (((activeOrdersAt s .BUY lvl.price).map Order.quantity).sum < U64 →
          lvl.total_quantity = ((activeOrdersAt s .BUY lvl.price).map Order.quantity).sum) ∧
        activeOrdersAt s .BUY lvl.price ≠ []) ∧
      ∀ lvl ∈ (getDepthSnapshot s k bids asks).2,
        lvl.total_quantity
          = ((activeOrdersAt s .SELL lvl.price).map Order.quantity).sum % U64 ∧
        (((activeOrdersAt s .SELL lvl.price).map Order.quantity).sum < U64 →
          lvl.total_quantity = ((activeOrdersAt s .SELL lvl.price).map Order.quantity).sum) ∧
        activeOrdersAt s .SELL lvl.price ≠ [] := by
  have hinv := inv_of_numReachable hs
  rw [getDepthSnapshot_eq]
  constructor
  · intro lvl hl
    obtain ⟨b, hmem, hq⟩ := snapshot_level_entry hl
    have hb := bucketAt_of_mem hinv (show (lvl.price, b) ∈ sideOf s (isBuy .BUY) from hmem)
    have h1 := activeOrdersAt_sum hinv .BUY hb.1 hb.2
    rw [hq, h1.1]
    exact ⟨rfl, fun hlt => Nat.mod_eq_of_lt hlt, h1.2⟩
  · intro lvl hl
    obtain ⟨b, hmem, hq⟩ := snapshot_level_entry hl
    have hb := bucketAt_of_mem hinv (show (lvl.price, b) ∈ sideOf s (isBuy .SELL) from hmem)
    have h1 := activeOrdersAt_sum hinv .SELL hb.1 hb.2
    rw [hq, h1.1]
    exact ⟨rfl, fun hlt => Nat.mod_eq_of_lt hlt, h1.2⟩

theorem snapshot_level_quantity_witness :
    NumReachable (OrderBook.empty.run
        [.createOrder .BUY 100 10 0, .createOrder .BUY 100 20 1, .createOrder .SELL 101 5 2]) ∧
      (⟨100, 30⟩ : PriceLevel) ∈ (getDepthSnapshot (OrderBook.empty.run
        [.createOrder .BUY 100 10 0, .createOrder .BUY 100 20 1, .createOrder .SELL 101 5 2])
        1 [] []).1 ∧
      30 = ((activeOrdersAt (OrderBook.empty.run
        [.createOrder .BUY 100 10 0, .createOrder .BUY 100 20 1, .createOrder .SELL 101 5 2])
        .BUY 100).map Order.quantity).sum % U64 :=
  ⟨numReachable_run NumReachable.init _ (by decide), by decide,
    ((snapshot_level_quantity _ (numReachable_run NumReachable.init _ (by decide)) 1 [] []).1
      ⟨100, 30⟩ (by decide)).1⟩

/-- C13 fails as stated: after two calls `createOrder(BUY, 100, 2 ^ 63)` the one bid
level of `getDepthSnapshot(1)` has `total_quantity = 0`, while the quantities of the
two active BUY orders at price 100 add up to `2 ^ 64`. -/
theorem snapshot_quantity_overflow :
    Reachable (OrderBook.empty.run
        [.createOrder .BUY 100 9223372036854775808 0,
          .createOrder .BUY 100 9223372036854775808 1]) ∧
      (getDepthSnapshot (OrderBook.empty.run
        [.createOrder .BUY 100 9223372036854775808 0,
          .createOrder .BUY 100 9223372036854775808 1]) 1 [] []).1 = [⟨100, 0⟩] ∧
      ((activeOrdersAt (OrderBook.empty.run
        [.createOrder .BUY 100 9223372036854775808 0,
          .createOrder .BUY 100 9223372036854775808 1]) .BUY 100).map Order.quantity).sum
        = 2 ^ 64 :=
  ⟨reachable_run Reachable.init _, by decide, by decide⟩

theorem snapshot_prices (m : PriceMap) (k : Nat) :
    ((m.take k).map levelOf).map PriceLevel.price = (mapKeys m).take k := by
  rw [List.map_map, mapKeys, ← List.map_take]
  rfl

theorem sorted_take_drop {comp : Price → Price → Bool} {m : PriceMap}
    (hs : MapSorted comp m) (k : Nat) :
    ((mapKeys m).take k).Pairwise (fun a b => comp a b = true) ∧
      ∀ a ∈ (mapKeys m).take k, ∀ q ∈ mapKeys m, q ∉ (mapKeys m).take k →
        comp a q = true := by
  have h : ((mapKeys m).take k ++ (mapKeys m).drop k).Pairwise (fun a b => comp a b = true) := by
    rw [List.take_append_drop]
    exact hs
  rw [List.pairwise_append] at h
  refine ⟨h.1, ?_⟩
  intro a ha q hq hnot
  have hq1 : q ∈ (mapKeys m).take k ++ (mapKeys m).drop k := by
    rw [List.take_append_drop]
    exact hq
  rcases List.mem_append.mp hq1 with h1 | h1
  · exact absurd h1 hnot
  · exact h.2.2 a ha q h1

/-- C14: for every book (its two maps ordered by their comparators, as a `std::map`
always is, and as they are in every reachable state: `sorted_of_reachable`) and every
depth `k`, the bid levels of `getDepthSnapshot(k)` are strictly descending in price and
the ask levels strictly ascending, and the returned levels are the best ones: every
price key of a side that is not among the returned prices is strictly lower (bids) or
strictly higher (asks) than every returned price. -/
theorem snapshot_ordered_best (s : OrderBook) (hb : MapSorted greater s.bid_side)
    (ha : MapSorted less s.ask_side) (k : Nat) (bids asks : List PriceLevel) :
    ((getDepthSnapshot s k bids asks).1.map PriceLevel.price).Pairwise (fun a b => a > b) ∧
      ((getDepthSnapshot s k bids asks).2.map PriceLevel.price).Pairwise (fun a b => a < b) ∧
      (∀ lvl ∈ (getDepthSnapshot s k bids asks).1, ∀ q ∈ mapKeys s.bid_side,
        q ∉ (getDepthSnapshot s k bids asks).1.map PriceLevel.price → q < lvl.price) ∧
      ∀ lvl ∈ (getDepthSnapshot s k bids asks).2, ∀ q ∈ mapKeys s.ask_side,
        q ∉ (getDepthSnapshot s k bids asks).2.map PriceLevel.price → lvl.price < q := by
  rw [getDepthSnapshot_eq]
  simp only [snapshot_prices]
  have h1 := sorted_take_drop hb k
  have h2 := sorted_take_drop ha k
  refine ⟨?_, ?_, ?_, ?_⟩
  · exact List.Pairwise.imp (fun h => (gt_iff_greater _ _).mpr h) h1.1
  · exact List.Pairwise.imp (fun h => (lt_iff_less _ _).mpr h) h2.1
  · intro lvl hl q hq hnot
    have hp : lvl.price ∈ (mapKeys s.bid_side).take k := by
      rw [← snapshot_prices]
      exact List.mem_map_of_mem _ hl
    exact (gt_iff_greater _ _).mpr (h1.2 _ hp q hq hnot)
  · intro lvl hl q hq hnot
    have hp : lvl.price ∈ (mapKeys s.ask_side).take k := by
      rw [← snapshot_prices]
      exact List.mem_map_of_mem _ hl
    exact (lt_iff_less _ _).mpr (h2.2 _ hp q hq hnot)

theorem snapshot_ordered_best_witness :
    MapSorted greater (OrderBook.empty.run
        [.createOrder .BUY 100 10 0, .createOrder .BUY 102 20 1, .createOrder .BUY 101 5 2,
          .createOrder .SELL 105 5 3, .createOrder .SELL 103 5 4]).bid_side ∧
      MapSorted less (OrderBook.empty.run
        [.createOrder .BUY 100 10 0, .createOrder .BUY 102 20 1, .createOrder .BUY 101 5 2,
          .createOrder .SELL 105 5 3, .createOrder .SELL 103 5 4]).ask_side ∧
      ((getDepthSnapshot (OrderBook.empty.run
        [.createOrder .BUY 100 10 0, .createOrder .BUY 102 20 1, .createOrder .BUY 101 5 2,
          .createOrder .SELL 105 5 3, .createOrder .SELL 103 5 4]) 2 [] []).1.map
        PriceLevel.price).Pairwise (fun a b => a > b) :=
  ⟨(sorted_of_reachable (reachable_run Reachable.init _)).1,
    (sorted_of_reachable (reachable_run Reachable.init _)).2,
    (snapshot_ordered_best _ (sorted_of_reachable (reachable_run Reachable.init _)).1
      (sorted_of_reachable (reachable_run Reachable.init _)).2 2 [] []).1⟩

/-- C15: for every book and every depth `k`, each sequence returned by
`getDepthSnapshot(k)` has length `min(k, number of price levels of that side)`, so at
most `k`; depth 0 gives two empty sequences; what the output sequences held before the
call does not matter; and on each side the result for `k` is a prefix of the result
for `k + 1`.  (The price levels of a side are the keys of its map, which are pairwise
distinct: `mapKeys_nodup`.) -/
theorem snapshot_length (s : OrderBook) (k : Nat) (bids asks : List PriceLevel) :
    (getDepthSnapshot s k bids asks).1.length = min k (mapKeys s.bid_side).length ∧
      (getDepthSnapshot s k bids asks).2.length = min k (mapKeys s.ask_side).length ∧
      (getDepthSnapshot s k bids asks).1.length ≤ k ∧
      (getDepthSnapshot s k bids asks).2.length ≤ k ∧
      getDepthSnapshot s 0 bids asks = ([], []) ∧
      getDepthSnapshot s k bids asks = getDepthSnapshot s k [] [] ∧
      (getDepthSnapshot s k bids asks).1 <+: (getDepthSnapshot s (k + 1) bids asks).1 ∧
      (getDepthSnapshot s k bids asks).2 <+: (getDepthSnapshot s (k + 1) bids asks).2 := by
  simp only [getDepthSnapshot_eq, mapKeys, List.length_map, List.length_take, List.take_zero,
    List.map_nil, true_and]
  refine ⟨Nat.min_le_left _ _, Nat.min_le_left _ _, ?_, ?_⟩
  · exact List.IsPrefix.map _ (List.take_prefix_take_left _ (Nat.le_succ k))
  · exact List.IsPrefix.map _ (List.take_prefix_take_left _ (Nat.le_succ k))

theorem le_of_less {a b : Price} (h : less a b = true) : a ≤ b := by
  show Price.le a b = true
  simp [Price.le, h]

theorem le_self {a : Price} (ha : a ≠ Price.nan) : a ≤ a := by
  show Price.le a a = true
  simp [Price.le, (Price.eq_iff ha ha).mpr rfl]

theorem mem_activeSide {s : OrderBook} (hs : Inv s) (t : OrderType) (o : Order) :
    o ∈ activeSide s t ↔ ∃ p b, (p, b) ∈ sideOf s (isBuy t) ∧ o ∈ b := by
  simp only [activeSide, activeOrders, List.mem_filter, List.mem_filterMap, List.mem_range,
    decide_eq_true_eq]
  constructor
  · rintro ⟨⟨id, -, hid⟩, ht⟩
    obtain ⟨loc, b, hl, hb, ho⟩ := (orderOf_eq_some hs).mp hid
    have hmem := List.mem_iff_getElem?.mpr ⟨_, ho⟩
    have hty := hs.typed _ _ b o (hs.loc_numeric id loc hl) hb hmem
    rw [ht] at hty
    refine ⟨loc.price, b, ?_, hmem⟩
    rw [hty.1]
    exact mem_of_bucketAt hs (hs.loc_numeric id loc hl) hb
  · rintro ⟨p, b, hpb, hm⟩
    obtain ⟨hp, hb⟩ := bucketAt_of_mem hs hpb
    obtain ⟨i, hi⟩ := List.mem_iff_getElem?.mp hm
    have hl := hs.indexed _ _ b i o hp hb hi
    have hty := hs.typed _ _ b o hp hb hm
    refine ⟨⟨o.order_id, hs.fresh _ _ hl, ?_⟩, isBuy_inj hty.1⟩
    exact (orderOf_eq_some hs).mpr ⟨_, b, hl, hb, hi⟩

theorem activeSide_of_nil {s : OrderBook} (hs : Inv s) (t : OrderType)
    (h : sideOf s (isBuy t) = []) : activeSide s t = [] := by
  rw [List.eq_nil_iff_forall_not_mem]
  intro o ho
  obtain ⟨p, b, hpb, -⟩ := (mem_activeSide hs t o).mp ho
  rw [h] at hpb
  exact List.not_mem_nil _ hpb

theorem activeSide_of_cons {s : OrderBook} (hs : Inv s) (t : OrderType) {p : Price}
    {b : List Order} {rest : PriceMap} (h : sideOf s (isBuy t) = (p, b) :: rest) :
    p ≠ Price.nan ∧ bucketAt s (isBuy t) p = some b ∧ activeSide s t ≠ [] ∧
      p ∈ (activeSide s t).map Order.price ∧
      ∀ o ∈ activeSide s t, o.price = p ∨ o.price ∈ mapKeys rest := by
  have hpb : (p, b) ∈ sideOf s (isBuy t) := by
    rw [h]
    exact List.mem_cons_self _ _
  obtain ⟨hp, hb⟩ := bucketAt_of_mem hs hpb
  have hne := hs.nonempty _ _ b hp hb
  obtain ⟨o, ho⟩ := List.exists_mem_of_ne_nil b hne
  have hty := hs.typed _ _ b o hp hb ho
  have hmem : o ∈ activeSide s t := (mem_activeSide hs t o).mpr ⟨p, b, hpb, ho⟩
  refine ⟨hp, hb, List.ne_nil_of_mem hmem, List.mem_map.mpr ⟨o, hmem, hty.2.1⟩, ?_⟩
  intro o1 ho1
  obtain ⟨p1, b1, hpb1, hm1⟩ := (mem_activeSide hs t o1).mp ho1
  obtain ⟨hp1, hb1⟩ := bucketAt_of_mem hs hpb1
  have hty1 := hs.typed _ _ b1 o1 hp1 hb1 hm1
  rw [hty1.2.1]
  rw [h] at hpb1
  rcases List.mem_cons.mp hpb1 with heq | hin
  · left
    exact (Prod.mk.inj heq).1
  · right
    exact List.mem_map.mpr ⟨(p1, b1), hin, rfl⟩

/-- Without NaN prices `getBestBidAsk()` returns, as the bid, 0 when no BUY order is
active and otherwise the highest price among the active BUY orders, and, as the ask, 0
when no SELL order is active and otherwise the lowest price among the active SELL
orders.  On the empty book, after `createOrder(SELL, 100.50, 100)` and
`createOrder(SELL, 100.75, 250)` the ask is 100.50, and after `cancelOrder(1)` (the
SELL 100.50 order) it is 100.75. -/
theorem best_bid_ask_numeric (s : OrderBook) (hs : NumReachable s) :
    ((activeSide s .BUY = [] ∧ (getBestBidAsk s).1 = 0) ∨
        ((getBestBidAsk s).1 ∈ (activeSide s .BUY).map Order.price ∧
          ∀ o ∈ activeSide s .BUY, o.price ≤ (getBestBidAsk s).1)) ∧
      ((activeSide s .SELL = [] ∧ (getBestBidAsk s).2 = 0) ∨
        ((getBestBidAsk s).2 ∈ (activeSide s .SELL).map Order.price ∧
          ∀ o ∈ activeSide s .SELL, (getBestBidAsk s).2 ≤ o.price)) ∧
      (getBestBidAsk (OrderBook.empty.run
        [.createOrder .SELL 100.50 100 0, .createOrder .SELL 100.75 250 1])).2 = 100.50 ∧
      (cancelOrder (OrderBook.empty.run
        [.createOrder .SELL 100.50 100 0, .createOrder .SELL 100.75 250 1]) 1).1 = true ∧
      (getBestBidAsk (OrderBook.empty.run
        [.createOrder .SELL 100.50 100 0, .createOrder .SELL 100.75 250 1,
          .cancelOrder 1])).2 = 100.75 := by
  have hinv := inv_of_numReachable hs
  refine ⟨?_, ?_, ?_⟩
  · cases hside : s.bid_side with
    | nil =>
      left
      exact ⟨activeSide_of_nil hinv .BUY hside, by simp [getBestBidAsk, hside]⟩
    | cons e rest =>
      obtain ⟨p, b⟩ := e
      right
      obtain ⟨hpn, -, -, hp, hall⟩ := activeSide_of_cons hinv .BUY hside
      have hbest : (getBestBidAsk s).1 = p := by simp [getBestBidAsk, hside]
      rw [hbest]
      refine ⟨hp, ?_⟩
      intro o ho
      rcases hall o ho with h1 | h1
      · rw [h1]
        exact le_self hpn
      · have hsorted := hinv.bid_sorted
        rw [hside] at hsorted
        exact le_of_less (mapSorted_head hsorted _ h1)
  · cases hside : s.ask_side with
    | nil =>
      left
      exact ⟨activeSide_of_nil hinv .SELL hside, by simp [getBestBidAsk, hside]⟩
    | cons e rest =>
      obtain ⟨p, b⟩ := e
      right
      obtain ⟨hpn, -, -, hp, hall⟩ := activeSide_of_cons hinv .SELL hside
      have hbest : (getBestBidAsk s).2 = p := by simp [getBestBidAsk, hside]
      rw [hbest]
      refine ⟨hp, ?_⟩
      intro o ho
      rcases hall o ho with h1 | h1
      · rw [h1]
        exact le_self hpn
      · have hsorted := hinv.ask_sorted
        rw [hside] at hsorted
        exact le_of_less (mapSorted_head hsorted _ h1)
  · have h1 : (100.50 : Price) = Price.fin (mkRat 201 2) := by
      show Price.fin _ = _
      congr 1
      norm_num
    have h2 : (100.75 : Price) = Price.fin (mkRat 403 4) := by
      show Price.fin _ = _
      congr 1
      norm_num
    rw [h1, h2]
    decide

/-- C16, evaluated on the code: `createOrder(BUY, NaN, 10)` and
`createOrder(BUY, 100, 5)` are accepted; both orders exist, the bid map has the single
key NaN, and `getBestBidAsk()` returns NaN as the bid.  NaN is the price of order 1 and
is not the highest price among the two active BUY orders in any sense: order 2 rests at
price 100 and `100 <= NaN` is false. -/
theorem best_bid_is_nan :
    Reachable (OrderBook.empty.run
        [.createOrder .BUY .nan 10 0, .createOrder .BUY 100 5 1]) ∧
      orderExists (OrderBook.empty.run
        [.createOrder .BUY .nan 10 0, .createOrder .BUY 100 5 1]) 1 = true ∧
      orderExists (OrderBook.empty.run
        [.createOrder .BUY .nan 10 0, .createOrder .BUY 100 5 1]) 2 = true ∧
      activeSide (OrderBook.empty.run
        [.createOrder .BUY .nan 10 0, .createOrder .BUY 100 5 1]) .BUY
        = [⟨1, .BUY, .nan, 10, 0⟩, ⟨2, .BUY, 100, 5, 1⟩] ∧
      (getBestBidAsk (OrderBook.empty.run
        [.createOrder .BUY .nan 10 0, .createOrder .BUY 100 5 1])).1 = .nan ∧
      ¬ ((100 : Price) ≤ (getBestBidAsk (OrderBook.empty.run
        [.createOrder .BUY .nan 10 0, .createOrder .BUY 100 5 1])).1) :=
  ⟨reachable_run Reachable.init _, by decide, by decide, by decide, by decide, by decide⟩

theorem snapshot_one (m : PriceMap) :
    (m.take 1).map levelOf = match m with
      | [] => []
      | e :: _ => [levelOf e] := by
  cases m <;> simp

/-- C17 as the code has it when no NaN price is given: in every state reached by calls
none of which is given a NaN price, `getBestBidAskQuantities()` returns, for each side,
0 if that side has no active order and otherwise the sum of the quantities of all
active orders of that side resting at the side's best price as reported by
`getBestBidAsk()`, taken modulo `2 ^ 64`; and for a side with an active order
`getDepthSnapshot(1)` returns on that side the single level made of that best price and
that quantity (no level for a side without active order). -/
theorem best_quantities (s : OrderBook) (hs : NumReachable s) (bids asks : List PriceLevel) :
    (getBestBidAskQuantities s).1 =
        (if activeSide s .BUY = [] then 0
          else ((activeOrdersAt s .BUY (getBestBidAsk s).1).map Order.quantity).sum % U64) ∧
      (getBestBidAskQuantities s).2 =
        (if activeSide s .SELL = [] then 0
          else ((activeOrdersAt s .SELL (getBestBidAsk s).2).map Order.quantity).sum % U64) ∧
      (getDepthSnapshot s 1 bids asks).1 =
        (if activeSide s .BUY = [] then []
          else [⟨(getBestBidAsk s).1, (getBestBidAskQuantities s).1⟩]) ∧
      (getDepthSnapshot s 1 bids asks).2 =
        (if activeSide s .SELL = [] then []
          else [⟨(getBestBidAsk s).2, (getBestBidAskQuantities s).2⟩]) := by
  have hinv := inv_of_numReachable hs
  rw [getDepthSnapshot_eq]
  simp only [snapshot_one]
  have hbid : (getBestBidAskQuantities s).1 =
        (if activeSide s .BUY = [] then 0
          else ((activeOrdersAt s .BUY (getBestBidAsk s).1).map Order.quantity).sum % U64) ∧
      (match s.bid_side with
        | [] => []
        | e :: _ => [levelOf e]) =
        (if activeSide s .BUY = [] then []
          else [⟨(getBestBidAsk s).1, (getBestBidAskQuantities s).1⟩]) := by
    cases hside : s.bid_side with
    | nil =>
      rw [if_pos (activeSide_of_nil hinv .BUY hside), if_pos (activeSide_of_nil hinv .BUY hside)]
      simp [getBestBidAskQuantities, hside]
    | cons e rest =>
      obtain ⟨p, b⟩ := e
      obtain ⟨hpn, hb, hne, -, -⟩ := activeSide_of_cons hinv .BUY hside
      have hbest : (getBestBidAsk s).1 = p := by simp [getBestBidAsk, hside]
      have hqty : (getBestBidAskQuantities s).1 = sumQuantity b := by
        simp [getBestBidAskQuantities, hside]
      refine ⟨?_, ?_⟩
      · rw [if_neg hne, hbest, hqty, (activeOrdersAt_sum hinv .BUY hpn hb).1]
      · rw [if_neg hne, hbest, hqty]
        rfl
  have hask : (getBestBidAskQuantities s).2 =
        (if activeSide s .SELL = [] then 0
          else ((activeOrdersAt s .SELL (getBestBidAsk s).2).map Order.quantity).sum % U64) ∧
      (match s.ask_side with
        | [] => []
        | e :: _ => [levelOf e]) =
        (if activeSide s .SELL = [] then []
          else [⟨(getBestBidAsk s).2, (getBestBidAskQuantities s).2⟩]) := by
    cases hside : s.ask_side with
    | nil =>
      rw [if_pos (activeSide_of_nil hinv .SELL hside),
        if_pos (activeSide_of_nil hinv .SELL hside)]
      simp [getBestBidAskQuantities, hside]
    | cons e rest =>
      obtain ⟨p, b⟩ := e
      obtain ⟨hpn, hb, hne, -, -⟩ := activeSide_of_cons hinv .SELL hside
      have hbest : (getBestBidAsk s).2 = p := by simp [getBestBidAsk, hside]
      have hqty : (getBestBidAskQuantities s).2 = sumQuantity b := by
        simp [getBestBidAskQuantities, hside]
      refine ⟨?_, ?_⟩
      · rw [if_neg hne, hbest, hqty, (activeOrdersAt_sum hinv .SELL hpn hb).1]
      · rw [if_neg hne, hbest, hqty]
        rfl
  exact ⟨hbid.1, hask.1, hbid.2, hask.2⟩

theorem best_quantities_witness :
    NumReachable (OrderBook.empty.run
        [.createOrder .BUY 100 10 0, .createOrder .BUY 102 20 1, .createOrder .BUY 102 7 2]) ∧
      (getDepthSnapshot (OrderBook.empty.run
        [.createOrder .BUY 100 10 0, .createOrder .BUY 102 20 1, .createOrder .BUY 102 7 2])
        1 [] []).1 =
        (if activeSide (OrderBook.empty.run
            [.createOrder .BUY 100 10 0, .createOrder .BUY 102 20 1,
              .createOrder .BUY 102 7 2]) .BUY = [] then []
          else [⟨(getBestBidAsk (OrderBook.empty.run
            [.createOrder .BUY 100 10 0, .createOrder .BUY 102 20 1,
              .createOrder .BUY 102 7 2])).1,
            (getBestBidAskQuantities (OrderBook.empty.run
            [.createOrder .BUY 100 10 0, .createOrder .BUY 102 20 1,
              .createOrder .BUY 102 7 2])).1⟩]) :=
  ⟨numReachable_run NumReachable.init _ (by decide),
    (best_quantities _ (numReachable_run NumReachable.init _ (by decide)) [] []).2.2.1⟩

/-- C17 fails as stated: after two calls `createOrder(SELL, 100, 2 ^ 63)` the ask side
has two active orders, both at the best ask 100, whose quantities add up to `2 ^ 64`,
while the ask component of `getBestBidAskQuantities()` is 0. -/
theorem best_quantity_overflow :
    Reachable (OrderBook.empty.run
        [.createOrder .SELL 100 9223372036854775808 0,
          .createOrder .SELL 100 9223372036854775808 1]) ∧
      (getBestBidAsk (OrderBook.empty.run
        [.createOrder .SELL 100 9223372036854775808 0,
          .createOrder .SELL 100 9223372036854775808 1])).2 = 100 ∧
      ((activeOrdersAt (OrderBook.empty.run
        [.createOrder .SELL 100 9223372036854775808 0,
          .createOrder .SELL 100 9223372036854775808 1]) .SELL 100).map Order.quantity).sum
        = 2 ^ 64 ∧
      (getBestBidAskQuantities (OrderBook.empty.run
        [.createOrder .SELL 100 9223372036854775808 0,
          .createOrder .SELL 100 9223372036854775808 1])).2 = 0 :=
  ⟨reachable_run Reachable.init _, by decide, by decide, by decide⟩

/-- C18: on the empty book, after `createOrder(BUY, 99.50, 100)`,
`createOrder(BUY, 99.50, 50)` and `createOrder(BUY, 99.25, 200)` the bids of
`getDepthSnapshot(2)` are `[(99.50, 150), (99.25, 200)]`; `cancelOrder(2)` (the
99.50 x 50 order) then returns `true`, after which the bids of `getDepthSnapshot(2)`
are `[(99.50, 100), (99.25, 200)]` and the bid of `getBestBidAsk()` is 99.50. -/
theorem demo_scenario :
    (getDepthSnapshot (OrderBook.empty.run
        [.createOrder .BUY 99.50 100 0, .createOrder .BUY 99.50 50 1,
          .createOrder .BUY 99.25 200 2]) 2 [] []).1 = [⟨99.50, 150⟩, ⟨99.25, 200⟩] ∧
      createdIds OrderBook.empty
        [.createOrder .BUY 99.50 100 0, .createOrder .BUY 99.50 50 1,
          .createOrder .BUY 99.25 200 2] = [1, 2, 3] ∧
      (cancelOrder (OrderBook.empty.run
        [.createOrder .BUY 99.50 100 0, .createOrder .BUY 99.50 50 1,
          .createOrder .BUY 99.25 200 2]) 2).1 = true ∧
      (getDepthSnapshot (OrderBook.empty.run
        [.createOrder .BUY 99.50 100 0, .createOrder .BUY 99.50 50 1,
          .createOrder .BUY 99.25 200 2, .cancelOrder 2]) 2 [] []).1
        = [⟨99.50, 100⟩, ⟨99.25, 200⟩] ∧
      (getBestBidAsk (OrderBook.empty.run
        [.createOrder .BUY 99.50 100 0, .createOrder .BUY 99.50 50 1,
          .createOrder .BUY 99.25 200 2, .cancelOrder 2])).1 = 99.50 := by
  have h1 : (99.50 : Price) = Price.fin (mkRat 199 2) := by
    show Price.fin _ = _
    congr 1
    norm_num
  have h2 : (99.25 : Price) = Price.fin (mkRat 397 4) := by
    show Price.fin _ = _
    congr 1
    norm_num
  rw [h1, h2]
  decide

/-- Swap-with-last removal without NaN prices: for an existing identifier `id` located
at index `i` of a bucket `b` of size `n` whose last element is `last`, `cancelOrder(id)`
returns `true` and afterwards: the bucket at that price is `b` with the element at
index `i` replaced by `last` and the last slot dropped (size `n - 1`, elements at the
other indices untouched), the price key being removed from the side's map when `n = 1`;
if `i < n - 1` the index records `last` at index `i` and no other identifier's location
changes (nor does any when `i = n - 1`); every bucket at another price or on the other
side is unchanged.  So arrival order is not kept: cancelling the first of three orders
created at one price leaves the bucket as `[third, second]`. -/
theorem cancelOrder_swap_remove_numeric (s : OrderBook) (hs : NumReachable s) (id : Nat)
    (loc : OrderLocation) (h : s.order_lookup id = some loc) :
    (∃ b last, bucketAt s loc.is_buy loc.price = some b ∧ loc.index < b.length ∧
      b.getLast? = some last ∧ (cancelOrder s id).1 = true ∧
      bucketAt (cancelOrder s id).2 loc.is_buy loc.price =
        (if b.length = 1 then none else some ((b.set loc.index last).dropLast)) ∧
      (b.length = 1 → loc.price ∉ mapKeys (sideOf (cancelOrder s id).2 loc.is_buy)) ∧
      ((b.set loc.index last).dropLast).length = b.length - 1 ∧
      (∀ j, j < b.length - 1 → j ≠ loc.index →
        ((b.set loc.index last).dropLast)[j]? = b[j]?) ∧
      (loc.index < b.length - 1 →
        ((b.set loc.index last).dropLast)[loc.index]? = some last ∧
        (cancelOrder s id).2.order_lookup last.order_id
          = some ⟨loc.price, loc.index, loc.is_buy⟩ ∧
        ∀ j, j ≠ id → j ≠ last.order_id →
          (cancelOrder s id).2.order_lookup j = s.order_lookup j) ∧
      (loc.index = b.length - 1 →
        ∀ j, j ≠ id → (cancelOrder s id).2.order_lookup j = s.order_lookup j) ∧
      (∀ ib p, p ≠ Price.nan → ¬ (ib = loc.is_buy ∧ p = loc.price) →
        bucketAt (cancelOrder s id).2 ib p = bucketAt s ib p) ∧
      sideOf (cancelOrder s id).2 (!loc.is_buy) = sideOf s (!loc.is_buy)) ∧
    mapFind greater (cancelOrder (OrderBook.empty.run
        [.createOrder .BUY 100 10 0, .createOrder .BUY 100 20 1, .createOrder .BUY 100 30 2])
        1).2.bid_side 100 = some [⟨3, .BUY, 100, 30, 2⟩, ⟨2, .BUY, 100, 20, 1⟩] := by
  refine ⟨?_, by decide⟩
  have hinv := inv_of_numReachable hs
  have hln := hinv.loc_numeric id loc h
  obtain ⟨b, o, hb, ho, hid, hc⟩ := cancelOrder_known hinv h
  have hi := getElem?_lt ho
  obtain ⟨last, hl, hsp⟩ := swapPop_eq (i := loc.index) hi
  have hlast : b[b.length - 1]? = some last := by
    rw [← List.getLast?_eq_getElem?]
    exact hl
  have hL := removeOrder_lookup hinv h hb hlast
  have hF : ∀ (ib : Bool) {p : Price}, p ≠ Price.nan → _ :=
    fun ib {p} hpn =>
      removeOrder_find hinv.bid_sorted hinv.ask_sorted hinv.numeric id hln hb ib hpn
  have hlen := swapPop_length (i := loc.index) hi
  have hnil : swapPop b loc.index = [] ↔ b.length = 1 := by
    rw [← List.length_eq_zero, hlen]
    omega
  have hsorted := removeOrder_sorted hinv.bid_sorted hinv.ask_sorted id loc b
  refine ⟨b, last, hb, hi, hl, ?_⟩
  rw [hc, ← hsp]
  refine ⟨rfl, ?_, ?_, hlen, ?_, ?_, ?_, ?_, (removeOrder_sides s id loc b).2⟩
  · rw [hF _ hln, if_pos ⟨rfl, rfl⟩]
    by_cases h1 : b.length = 1
    · rw [if_pos h1, if_pos (hnil.mpr h1)]
    · rw [if_neg h1, if_neg (fun hc1 => h1 (hnil.mp hc1))]
  · intro h1 hk
    obtain ⟨b1, hb1⟩ := mapFind_of_mem_keys (strictTotal_compOf loc.is_buy)
      (side_sorted hsorted.1 hsorted.2 loc.is_buy) hk
    have hb2 : bucketAt (removeOrder s id loc b) loc.is_buy loc.price = some b1 := hb1
    rw [hF _ hln, if_pos ⟨rfl, rfl⟩, if_pos (hnil.mpr h1)] at hb2
    exact Option.noConfusion hb2
  · intro j hj hji
    rw [swapPop_getElem? hi hj, if_neg hji]
  · intro hlt
    have hne : last.order_id ≠ id := by
      intro he
      have := bucket_index_unique hinv hln hb hlast ho (he.trans hid.symm)
      omega
    refine ⟨?_, ?_, ?_⟩
    · rw [swapPop_getElem? hi hlt, if_pos rfl]
      exact hlast
    · rw [hL, Function.update_noteq hne, Function.update_same]
    · intro j hj1 hj2
      rw [hL, Function.update_noteq hj1, Function.update_noteq hj2]
  · intro heq j hj
    rw [← heq, ho] at hlast
    cases hlast
    rw [hL, hid, Function.update_idem, Function.update_noteq hj]
  · intro ib p hpn hne
    rw [hF ib hpn, if_neg hne]

/-- C19, evaluated on the code: after `createOrder(BUY, 100, 5)`,
`createOrder(BUY, NaN, 7)` and `createOrder(BUY, 101, 5)` order 2 exists and is stored
at index 1 of the bucket of 100, which has size 2.  `cancelOrder(2)` returns `false` and
removes nothing: the book after the call is the book before it, and the bucket of 100
still holds orders 1 and 2. -/
theorem cancelOrder_removes_nothing :
    Reachable (OrderBook.empty.run
        [.createOrder .BUY 100 5 0, .createOrder .BUY .nan 7 1, .createOrder .BUY 101 5 2]) ∧
      orderExists (OrderBook.empty.run
        [.createOrder .BUY 100 5 0, .createOrder .BUY .nan 7 1, .createOrder .BUY 101 5 2])
        2 = true ∧
      mapFind greater (OrderBook.empty.run
        [.createOrder .BUY 100 5 0, .createOrder .BUY .nan 7 1, .createOrder .BUY 101 5 2]
        ).bid_side 100 = some [⟨1, .BUY, 100, 5, 0⟩, ⟨2, .BUY, .nan, 7, 1⟩] ∧
      (cancelOrder (OrderBook.empty.run
        [.createOrder .BUY 100 5 0, .createOrder .BUY .nan 7 1, .createOrder .BUY 101 5 2])
        2).2.bid_side = (OrderBook.empty.run
        [.createOrder .BUY 100 5 0, .createOrder .BUY .nan 7 1, .createOrder .BUY 101 5 2]
        ).bid_side ∧
      mapFind greater (cancelOrder (OrderBook.empty.run
        [.createOrder .BUY 100 5 0, .createOrder .BUY .nan 7 1, .createOrder .BUY 101 5 2])
        2).2.bid_side 100 = some [⟨1, .BUY, 100, 5, 0⟩, ⟨2, .BUY, .nan, 7, 1⟩] ∧
      getOrderCount (cancelOrder (OrderBook.empty.run
        [.createOrder .BUY 100 5 0, .createOrder .BUY .nan 7 1, .createOrder .BUY 101 5 2])
        2).2 = 3 :=
  ⟨reachable_run Reachable.init _, by decide, by decide, by decide, by decide, by decide⟩

/-- Store well-formedness without NaN prices: (a) no price key of either side's map has
an empty bucket, (b) every order stored in a bid bucket has type BUY and every order
stored in an ask bucket has type SELL, its price field is the bucket's key, and its
price and quantity are positive, (c) every stored order's identifier is in the location
index, recorded at the very place where the order is stored, so no identifier is stored
at two places; the keys of each map are pairwise distinct, and every identifier in the
index is that of an order stored at its recorded place. -/
theorem store_well_formed_numeric (s : OrderBook) (hs : NumReachable s) :
    (∀ p b, (p, b) ∈ s.bid_side → b ≠ [] ∧
        ∀ o ∈ b, o.order_type = .BUY ∧ o.price = p ∧ 0 < o.price ∧ 0 < o.quantity) ∧
      (∀ p b, (p, b) ∈ s.ask_side → b ≠ [] ∧
        ∀ o ∈ b, o.order_type = .SELL ∧ o.price = p ∧ 0 < o.price ∧ 0 < o.quantity) ∧
      (∀ ib p b i o, (p, b) ∈ sideOf s ib → b[i]? = some o →
        s.order_lookup o.order_id = some ⟨p, i, ib⟩) ∧
      (∀ (ib1 : Bool) (p1 : Price) (b1 : List Order) (i1 : Nat) (o1 : Order) (ib2 : Bool)
          (p2 : Price) (b2 : List Order) (i2 : Nat) (o2 : Order),
        (p1, b1) ∈ sideOf s ib1 → b1[i1]? = some o1 →
        (p2, b2) ∈ sideOf s ib2 → b2[i2]? = some o2 → o1.order_id = o2.order_id →
        ib1 = ib2 ∧ p1 = p2 ∧ b1 = b2 ∧ i1 = i2) ∧
      (mapKeys s.bid_side).Nodup ∧ (mapKeys s.ask_side).Nodup ∧
      ∀ id loc, s.order_lookup id = some loc →
        ∃ b o, (loc.price, b) ∈ sideOf s loc.is_buy ∧ b[loc.index]? = some o ∧
          o.order_id = id := by
  have hinv := inv_of_numReachable hs
  have hidx : ∀ ib p b i o, (p, b) ∈ sideOf s ib → b[i]? = some o →
      s.order_lookup o.order_id = some ⟨p, i, ib⟩ :=
    fun ib p b i o hm ho =>
      hinv.indexed ib p b i o (bucketAt_of_mem hinv hm).1 (bucketAt_of_mem hinv hm).2 ho
  refine ⟨?_, ?_, hidx, ?_, mapKeys_nodup strictTotal_greater hinv.bid_sorted,
    mapKeys_nodup strictTotal_less hinv.ask_sorted, ?_⟩
  · intro p b hm
    obtain ⟨hp, hb⟩ := bucketAt_of_mem hinv (show (p, b) ∈ sideOf s true from hm)
    refine ⟨hinv.nonempty _ _ b hp hb, ?_⟩
    intro o ho
    have ht := hinv.typed _ _ b o hp hb ho
    exact ⟨isBuy_inj (show isBuy o.order_type = isBuy .BUY from ht.1), ht.2.1,
      ht.2.1 ▸ ht.2.2.1, ht.2.2.2⟩
  · intro p b hm
    obtain ⟨hp, hb⟩ := bucketAt_of_mem hinv (show (p, b) ∈ sideOf s false from hm)
    refine ⟨hinv.nonempty _ _ b hp hb, ?_⟩
    intro o ho
    have ht := hinv.typed _ _ b o hp hb ho
    exact ⟨isBuy_inj (show isBuy o.order_type = isBuy .SELL from ht.1), ht.2.1,
      ht.2.1 ▸ ht.2.2.1, ht.2.2.2⟩
  · intro ib1 p1 b1 i1 o1 ib2 p2 b2 i2 o2 hm1 ho1 hm2 ho2 he
    have e1 := hidx _ _ _ _ _ hm1 ho1
    have e2 := hidx _ _ _ _ _ hm2 ho2
    rw [he, e2] at e1
    simp only [Option.some.injEq, OrderLocation.mk.injEq] at e1
    obtain ⟨hp, hi, hib⟩ := e1
    subst hp
    subst hib
    have hb := (bucketAt_of_mem hinv hm1).2
    rw [(bucketAt_of_mem hinv hm2).2] at hb
    exact ⟨rfl, rfl, (Option.some.inj hb).symm, hi.symm⟩
  · intro id loc hl
    obtain ⟨b, o, hb, ho, hid⟩ := hinv.located id loc hl
    exact ⟨b, o, mem_of_bucketAt hinv (hinv.loc_numeric id loc hl) hb, ho, hid⟩

/-- C20, evaluated on the code: `createOrder(BUY, NaN, 10)` and
`createOrder(BUY, 100, 5)` are accepted and leave the bid map with the single key NaN,
whose bucket holds both orders.  Order 2, stored in that bucket, has the price field
100, which is not the key of the bucket, and order 1, stored there too, has the price
NaN, for which `price > 0` is false. -/
theorem store_ill_formed_by_nan :
    Reachable (OrderBook.empty.run
        [.createOrder .BUY .nan 10 0, .createOrder .BUY 100 5 1]) ∧
      createdIds OrderBook.empty
        [.createOrder .BUY .nan 10 0, .createOrder .BUY 100 5 1] = [1, 2] ∧
      (OrderBook.empty.run
        [.createOrder .BUY .nan 10 0, .createOrder .BUY 100 5 1]).bid_side
        = [(.nan, [⟨1, .BUY, .nan, 10, 0⟩, ⟨2, .BUY, 100, 5, 1⟩])] ∧
      (¬ ∀ p b, (p, b) ∈ (OrderBook.empty.run
          [.createOrder .BUY .nan 10 0, .createOrder .BUY 100 5 1]).bid_side →
        ∀ o ∈ b, o.price = p) ∧
      ¬ ∀ p b, (p, b) ∈ (OrderBook.empty.run
          [.createOrder .BUY .nan 10 0, .createOrder .BUY 100 5 1]).bid_side →
        ∀ o ∈ b, 0 < o.price := by
  refine ⟨reachable_run Reachable.init _, by decide, by decide, ?_, ?_⟩
  · intro h
    have h1 := h .nan [⟨1, .BUY, .nan, 10, 0⟩, ⟨2, .BUY, 100, 5, 1⟩] (by decide)
      ⟨2, .BUY, 100, 5, 1⟩ (by decide)
    exact absurd h1 (by decide)
  · intro h
    have h1 := h .nan [⟨1, .BUY, .nan, 10, 0⟩, ⟨2, .BUY, 100, 5, 1⟩] (by decide)
      ⟨1, .BUY, .nan, 10, 0⟩ (by decide)
    exact absurd h1 (by decide)

end HFT
